import Mathlib

/-!
Verification of the mqttrs subscribe/suback/unsubscribe codecs and the legacy
decoder, shallowly embedded from `src/subscribe.rs`, `src/decoder.rs` and
`src/packet.rs`.  Buffers are `List Nat` of byte values; a Rust `&mut usize`
offset becomes explicit offset passing; fallible parsing returns a result that
distinguishes a Rust panic (out-of-bounds indexing) from a recoverable `Err`.

Primitive field codecs (`Pid`, `QoS`, `read_str`, `write_u8`, `write_length`,
`check_remaining`, `MULTIPLIER`, the `Error` enum) live in repository files
that are not part of the provided sources; those definitions are modelled
from the specification and marked `Modelled from the spec` below.
-/

/-- Modelled from the spec: the error taxonomy of §7 (the repository's `Error`
enum is in a file not provided).  Only the variants the verified code paths
can produce are modelled. -/
inductive Error where
  | InvalidPid : Error
  | InvalidQoS : Error
  | InvalidLength : Error
  | WriteZero : Error
  deriving DecidableEq, Repr

/-- Result of a Rust parsing function that takes `buf: &[u8]` and
`offset: &mut usize`: either a panic (unchecked indexing out of bounds),
or `Err(e)` / `Ok(a)` together with the final value of `*offset`. -/
inductive PResult (α : Type) where
  | panic : PResult α
  | err : Error → Nat → PResult α
  | ok : α → Nat → PResult α
  deriving DecidableEq, Repr

/-- Modelled from the spec (§3): QoS levels 0, 1, 2 (`QoS` is defined in a
repository file not provided). -/
inductive QoS where
  | AtMostOnce : QoS
  | AtLeastOnce : QoS
  | ExactlyOnce : QoS
  deriving DecidableEq, Repr

/-- Modelled from the spec (§4.6): "QoS read/write: 1 byte, values 0–2 valid";
any other wire byte is a decode error. -/
def QoS.from_u8 (n : Nat) : Except Error QoS :=
  match n with
  | 0 => .ok .AtMostOnce
  | 1 => .ok .AtLeastOnce
  | 2 => .ok .ExactlyOnce
  | _ => .error .InvalidQoS

/-- Modelled from the spec (§4.6, inverse of `QoS.from_u8`). -/
def QoS.to_u8 : QoS → Nat
  | .AtMostOnce => 0
  | .AtLeastOnce => 1
  | .ExactlyOnce => 2

/-- Modelled from the spec (§3): 16-bit packet identifier, wrapped value. -/
structure Pid where
  value : Nat
  deriving DecidableEq, Repr

/-- Modelled from the spec (§3): "Constructed by validated conversion from an
unsigned 16-bit value; rejects 0." -/
def Pid.try_from (n : Nat) : Except Error Pid :=
  if n = 0 then .error .InvalidPid else .ok ⟨n⟩

/-- Modelled from the spec (§4.6): "Pid read/write: 2 bytes big-endian; read
value of 0 is a decode error."  Missing bytes are a decode error, per the
spec's no-panic contract for the current decode path. -/
def Pid.from_buffer (buf : List Nat) (offset : Nat) : PResult Pid :=
  match buf[offset]?, buf[offset + 1]? with
  | some hi, some lo =>
    match Pid.try_from (hi * 256 + lo) with
    | .error e => .err e (offset + 2)
    | .ok pid => .ok pid (offset + 2)
  | _, _ => .err .InvalidPid offset

/-- Modelled from the spec (§4.6): length-prefixed byte field, "2-byte
big-endian length + UTF-8 bytes; invalid UTF-8 or length exceeding remaining
buffer is a decode error". -/
def read_bytes (buf : List Nat) (offset : Nat) : PResult (List Nat) :=
  match buf[offset]?, buf[offset + 1]? with
  | some hi, some lo =>
    let len := hi * 256 + lo
    if buf.length - (offset + 2) < len then .err .InvalidLength (offset + 2)
    else .ok ((buf.drop (offset + 2)).take len) (offset + 2 + len)
  | _, _ => .err .InvalidLength offset

/-- Modelled from the spec (§4.6): strings are carried as their UTF-8 byte
lists; the UTF-8 well-formedness check is not modelled, so `read_str` is
`read_bytes`. -/
def read_str (buf : List Nat) (offset : Nat) : PResult (List Nat) :=
  read_bytes buf offset

/-- Subscribe return value (`src/subscribe.rs` lines 48-51). -/
inductive SubscribeReturnCodes where
  | Success : QoS → SubscribeReturnCodes
  | Failure : SubscribeReturnCodes
  deriving DecidableEq, Repr

/-- `SubscribeReturnCodes::from_buffer` (`src/subscribe.rs` lines 54-63):
reads `buf[*offset]` (unchecked indexing: out of bounds panics), advances the
offset by one, then maps 0x80 to `Failure` and any valid QoS byte to
`Success`; the `?` on `QoS::from_u8` propagates after the offset bump. -/
def SubscribeReturnCodes.from_buffer (buf : List Nat) (offset : Nat) :
    PResult SubscribeReturnCodes :=
  if h : offset < buf.length then
    let code := buf[offset]
    if code = 0x80 then .ok .Failure (offset + 1)
    else
      match QoS.from_u8 code with
      | .error e => .err e (offset + 1)
      | .ok qos => .ok (.Success qos) (offset + 1)
  else .panic

/-- `SubscribeReturnCodes::to_u8` (`src/subscribe.rs` lines 65-70). -/
def SubscribeReturnCodes.to_u8 : SubscribeReturnCodes → Nat
  | .Failure => 0x80
  | .Success qos => qos.to_u8

/-- Subscribe topic (`src/subscribe.rs` lines 27-30); the topic path string is
its UTF-8 byte list. -/
structure SubscribeTopic where
  topic_path : List Nat
  qos : QoS
  deriving DecidableEq, Repr

/-- `SubscribeTopic::from_buffer` (`src/subscribe.rs` lines 33-38): a
length-prefixed string, then an unchecked read of the QoS byte (out of bounds
panics), offset bumped after the `?` on `QoS::from_u8`. -/
def SubscribeTopic.from_buffer (buf : List Nat) (offset : Nat) :
    PResult SubscribeTopic :=
  match read_str buf offset with
  | .panic => .panic
  | .err e off => .err e off
  | .ok topic_path off =>
    if h : off < buf.length then
      match QoS.from_u8 buf[off] with
      | .error e => .err e off
      | .ok qos => .ok ⟨topic_path, qos⟩ (off + 1)
    else .panic

/-- A successful `read_bytes` advances the offset by 2 + length and stays
inside the buffer. -/
theorem read_bytes_ok_advance {buf : List Nat} {offset : Nat} {s : List Nat}
    {off : Nat} (h : read_bytes buf offset = .ok s off) :
    off = offset + 2 + s.length ∧ offset < off ∧ off ≤ buf.length := by
  unfold read_bytes at h
  cases h1 : buf[offset]? with
  | none => simp [h1] at h
  | some hi =>
    cases h2 : buf[offset + 1]? with
    | none => simp [h1, h2] at h
    | some lo =>
      simp only [h1, h2] at h
      split at h
      · exact absurd h (by simp)
      · rename_i hlen
        have hlt : offset + 1 < buf.length := (List.getElem?_eq_some.mp h2).1
        obtain ⟨hs, hoff⟩ := by simpa using h
        subst hs hoff
        have htake : ((buf.drop (offset + 2)).take (hi * 256 + lo)).length =
            hi * 256 + lo := by
          simp only [List.length_take, List.length_drop]
          omega
        refine ⟨by omega, by omega, by omega⟩

theorem read_str_ok_advance {buf : List Nat} {offset : Nat} {s : List Nat}
    {off : Nat} (h : read_str buf offset = .ok s off) :
    off = offset + 2 + s.length ∧ offset < off ∧ off ≤ buf.length :=
  read_bytes_ok_advance h

theorem read_bytes_no_panic (buf : List Nat) (offset : Nat) :
    read_bytes buf offset ≠ .panic := by
  unfold read_bytes
  cases h1 : buf[offset]? <;> cases h2 : buf[offset + 1]? <;> simp
  split <;> simp

/-- A successful `SubscribeTopic::from_buffer` advances the offset and stays
inside the buffer (its last read, the QoS byte, is in bounds). -/
theorem topic_from_buffer_ok_advance {buf : List Nat} {offset : Nat}
    {t : SubscribeTopic} {off : Nat}
    (h : SubscribeTopic.from_buffer buf offset = .ok t off) :
    offset < off ∧ off ≤ buf.length := by
  unfold SubscribeTopic.from_buffer at h
  cases hs : read_str buf offset with
  | panic => simp [hs] at h
  | err e o => simp [hs] at h
  | ok s o =>
    simp only [hs] at h
    obtain ⟨-, ho, -⟩ := read_str_ok_advance hs
    split at h
    · rename_i hb
      split at h
      · exact absurd h (by simp)
      · obtain ⟨-, hoff⟩ := by simpa using h
        omega
    · exact absurd h (by simp)

theorem retcode_from_buffer_ok_advance {buf : List Nat}
    {offset : Nat} {rc : SubscribeReturnCodes} {off : Nat}
    (h : SubscribeReturnCodes.from_buffer buf offset = .ok rc off) :
    off = offset + 1 ∧ offset < buf.length := by
  unfold SubscribeReturnCodes.from_buffer at h
  split at h
  · rename_i hb
    refine ⟨?_, hb⟩
    dsimp only at h
    split at h
    · injection h with h1 h2
      omega
    · split at h
      · exact absurd h (by simp)
      · injection h with h1 h2
        omega
  · exact absurd h (by simp)

/-- The topic-reading loop of `Subscribe::from_buffer`
(`src/subscribe.rs` lines 116-122, `std` configuration where `push` cannot
fail): consume topics while the cursor is strictly below `payload_end`. -/
def Subscribe.readTopics (buf : List Nat) (payload_end : Nat) (offset : Nat)
    (topics : List SubscribeTopic) : PResult (List SubscribeTopic) :=
  if hlt : offset < payload_end then
    match hp : SubscribeTopic.from_buffer buf offset with
    | .panic => .panic
    | .err e off => .err e off
    | .ok t off => Subscribe.readTopics buf payload_end off (topics ++ [t])
  else .ok topics offset
termination_by payload_end - offset
decreasing_by
  have := (topic_from_buffer_ok_advance hp).1
  omega

/-- The return-code-reading loop of `Suback::from_buffer`
(`src/subscribe.rs` lines 207-213, `std` configuration). -/
def Suback.readCodes (buf : List Nat) (payload_end : Nat) (offset : Nat)
    (return_codes : List SubscribeReturnCodes) :
    PResult (List SubscribeReturnCodes) :=
  if hlt : offset < payload_end then
    match hp : SubscribeReturnCodes.from_buffer buf offset with
    | .panic => .panic
    | .err e off => .err e off
    | .ok rc off => Suback.readCodes buf payload_end off (return_codes ++ [rc])
  else .ok return_codes offset
termination_by payload_end - offset
decreasing_by
  have := (retcode_from_buffer_ok_advance hp).1
  omega

/-- The topic-reading loop of `Unsubscribe::from_buffer`
(`src/subscribe.rs` lines 165-171, `std` configuration where
`LimitedString::from_str` is infallible and `push` cannot fail). -/
def Unsubscribe.readTopics (buf : List Nat) (payload_end : Nat) (offset : Nat)
    (topics : List (List Nat)) : PResult (List (List Nat)) :=
  if hlt : offset < payload_end then
    match hp : read_str buf offset with
    | .panic => .panic
    | .err e off => .err e off
    | .ok s off => Unsubscribe.readTopics buf payload_end off (topics ++ [s])
  else .ok topics offset
termination_by payload_end - offset
decreasing_by
  have := (read_str_ok_advance hp).2.1
  omega

theorem subscribe_readTopics_stop (buf : List Nat) (payload_end offset : Nat)
    (acc : List SubscribeTopic) (h : ¬ offset < payload_end) :
    Subscribe.readTopics buf payload_end offset acc = .ok acc offset := by
  rw [Subscribe.readTopics]
  simp [h]

theorem subscribe_readTopics_step_ok (buf : List Nat)
    (payload_end offset : Nat) (acc : List SubscribeTopic)
    {t : SubscribeTopic} {off : Nat} (hlt : offset < payload_end)
    (h : SubscribeTopic.from_buffer buf offset = .ok t off) :
    Subscribe.readTopics buf payload_end offset acc =
      Subscribe.readTopics buf payload_end off (acc ++ [t]) := by
  rw [Subscribe.readTopics, dif_pos hlt]
  split <;> rename_i heq <;> rw [h] at heq <;> cases heq <;> rfl

theorem subscribe_readTopics_step_err (buf : List Nat)
    (payload_end offset : Nat) (acc : List SubscribeTopic)
    {e : Error} {off : Nat} (hlt : offset < payload_end)
    (h : SubscribeTopic.from_buffer buf offset = .err e off) :
    Subscribe.readTopics buf payload_end offset acc = .err e off := by
  rw [Subscribe.readTopics, dif_pos hlt]
  split <;> rename_i heq <;> rw [h] at heq <;> cases heq <;> rfl

theorem subscribe_readTopics_step_panic (buf : List Nat)
    (payload_end offset : Nat) (acc : List SubscribeTopic)
    (hlt : offset < payload_end)
    (h : SubscribeTopic.from_buffer buf offset = .panic) :
    Subscribe.readTopics buf payload_end offset acc = .panic := by
  rw [Subscribe.readTopics, dif_pos hlt]
  split <;> rename_i heq <;> rw [h] at heq <;> cases heq <;> rfl

theorem Suback.readCodes_stop (buf : List Nat) (payload_end offset : Nat)
    (acc : List SubscribeReturnCodes) (h : ¬ offset < payload_end) :
    Suback.readCodes buf payload_end offset acc = .ok acc offset := by
  rw [Suback.readCodes]
  simp [h]

theorem Suback.readCodes_step_ok (buf : List Nat) (payload_end offset : Nat)
    (acc : List SubscribeReturnCodes) {rc : SubscribeReturnCodes} {off : Nat}
    (hlt : offset < payload_end)
    (h : SubscribeReturnCodes.from_buffer buf offset = .ok rc off) :
    Suback.readCodes buf payload_end offset acc =
      Suback.readCodes buf payload_end off (acc ++ [rc]) := by
  rw [Suback.readCodes, dif_pos hlt]
  split <;> rename_i heq <;> rw [h] at heq <;> cases heq <;> rfl

theorem Suback.readCodes_step_err (buf : List Nat) (payload_end offset : Nat)
    (acc : List SubscribeReturnCodes) {e : Error} {off : Nat}
    (hlt : offset < payload_end)
    (h : SubscribeReturnCodes.from_buffer buf offset = .err e off) :
    Suback.readCodes buf payload_end offset acc = .err e off := by
  rw [Suback.readCodes, dif_pos hlt]
  split <;> rename_i heq <;> rw [h] at heq <;> cases heq <;> rfl

theorem Suback.readCodes_step_panic (buf : List Nat) (payload_end offset : Nat)
    (acc : List SubscribeReturnCodes) (hlt : offset < payload_end)
    (h : SubscribeReturnCodes.from_buffer buf offset = .panic) :
    Suback.readCodes buf payload_end offset acc = .panic := by
  rw [Suback.readCodes, dif_pos hlt]
  split <;> rename_i heq <;> rw [h] at heq <;> cases heq <;> rfl

theorem unsubscribe_readTopics_stop (buf : List Nat) (payload_end offset : Nat)
    (acc : List (List Nat)) (h : ¬ offset < payload_end) :
    Unsubscribe.readTopics buf payload_end offset acc = .ok acc offset := by
  rw [Unsubscribe.readTopics]
  simp [h]

theorem unsubscribe_readTopics_step_ok (buf : List Nat)
    (payload_end offset : Nat) (acc : List (List Nat)) {s : List Nat}
    {off : Nat} (hlt : offset < payload_end)
    (h : read_str buf offset = .ok s off) :
    Unsubscribe.readTopics buf payload_end offset acc =
      Unsubscribe.readTopics buf payload_end off (acc ++ [s]) := by
  rw [Unsubscribe.readTopics, dif_pos hlt]
  split <;> rename_i heq <;> rw [h] at heq <;> cases heq <;> rfl

theorem unsubscribe_readTopics_step_err (buf : List Nat)
    (payload_end offset : Nat) (acc : List (List Nat)) {e : Error} {off : Nat}
    (hlt : offset < payload_end) (h : read_str buf offset = .err e off) :
    Unsubscribe.readTopics buf payload_end offset acc = .err e off := by
  rw [Unsubscribe.readTopics, dif_pos hlt]
  split <;> rename_i heq <;> rw [h] at heq <;> cases heq <;> rfl

/-- Subscribe packet (`src/subscribe.rs` lines 78-81). -/
structure Subscribe where
  pid : Pid
  topics : List SubscribeTopic
  deriving DecidableEq, Repr

/-- Suback packet (`src/subscribe.rs` lines 88-91). -/
structure Suback where
  pid : Pid
  return_codes : List SubscribeReturnCodes
  deriving DecidableEq, Repr

/-- Unsubscribe packet (`src/subscribe.rs` lines 98-101); topics are UTF-8
byte lists. -/
structure Unsubscribe where
  pid : Pid
  topics : List (List Nat)
  deriving DecidableEq, Repr

/-- `Subscribe::from_buffer` (`src/subscribe.rs` lines 108-125, `std`): fix
`payload_end = *offset + remaining_len`, read the `Pid`, then loop reading
topics while the cursor is strictly below `payload_end`. -/
def Subscribe.from_buffer (remaining_len : Nat) (buf : List Nat)
    (offset : Nat) : PResult Subscribe :=
  let payload_end := offset + remaining_len
  match Pid.from_buffer buf offset with
  | .panic => .panic
  | .err e off => .err e off
  | .ok pid off =>
    match Subscribe.readTopics buf payload_end off [] with
    | .panic => .panic
    | .err e off => .err e off
    | .ok topics off => .ok ⟨pid, topics⟩ off

/-- `Suback::from_buffer` (`src/subscribe.rs` lines 199-216, `std`). -/
def Suback.from_buffer (remaining_len : Nat) (buf : List Nat)
    (offset : Nat) : PResult Suback :=
  let payload_end := offset + remaining_len
  match Pid.from_buffer buf offset with
  | .panic => .panic
  | .err e off => .err e off
  | .ok pid off =>
    match Suback.readCodes buf payload_end off [] with
    | .panic => .panic
    | .err e off => .err e off
    | .ok return_codes off => .ok ⟨pid, return_codes⟩ off

/-- `Unsubscribe::from_buffer` (`src/subscribe.rs` lines 157-174, `std`). -/
def Unsubscribe.from_buffer (remaining_len : Nat) (buf : List Nat)
    (offset : Nat) : PResult Unsubscribe :=
  let payload_end := offset + remaining_len
  match Pid.from_buffer buf offset with
  | .panic => .panic
  | .err e off => .err e off
  | .ok pid off =>
    match Unsubscribe.readTopics buf payload_end off [] with
    | .panic => .panic
    | .err e off => .err e off
    | .ok topics off => .ok ⟨pid, topics⟩ off

/-- Successful run of `Subscribe::from_buffer` assembled from a successful
`Pid` read and a successful topic loop. -/
theorem subscribe_from_buffer_ok_of {remaining_len : Nat} {buf : List Nat}
    {offset : Nat} {pid : Pid} {off1 : Nat} {topics : List SubscribeTopic}
    {off2 : Nat} (h1 : Pid.from_buffer buf offset = .ok pid off1)
    (h2 : Subscribe.readTopics buf (offset + remaining_len) off1 [] =
      .ok topics off2) :
    Subscribe.from_buffer remaining_len buf offset = .ok ⟨pid, topics⟩ off2 := by
  unfold Subscribe.from_buffer
  simp only [h1, h2]

theorem suback_from_buffer_ok_of {remaining_len : Nat} {buf : List Nat}
    {offset : Nat} {pid : Pid} {off1 : Nat}
    {return_codes : List SubscribeReturnCodes} {off2 : Nat}
    (h1 : Pid.from_buffer buf offset = .ok pid off1)
    (h2 : Suback.readCodes buf (offset + remaining_len) off1 [] =
      .ok return_codes off2) :
    Suback.from_buffer remaining_len buf offset = .ok ⟨pid, return_codes⟩ off2 := by
  unfold Suback.from_buffer
  simp only [h1, h2]

theorem unsubscribe_from_buffer_ok_of {remaining_len : Nat} {buf : List Nat}
    {offset : Nat} {pid : Pid} {off1 : Nat} {topics : List (List Nat)}
    {off2 : Nat} (h1 : Pid.from_buffer buf offset = .ok pid off1)
    (h2 : Unsubscribe.readTopics buf (offset + remaining_len) off1 [] =
      .ok topics off2) :
    Unsubscribe.from_buffer remaining_len buf offset = .ok ⟨pid, topics⟩ off2 := by
  unfold Unsubscribe.from_buffer
  simp only [h1, h2]

/-- Modelled from the spec (§4.4): checks that `len` bytes fit after `offset`
in the output buffer, failing with the "no space" condition otherwise. -/
def check_remaining (buf : List Nat) (offset len : Nat) : Except Error Unit :=
  if buf.length - offset < len then .error .WriteZero else .ok ()

/-- Modelled from the spec (§4.4): writes one byte at `offset` in a
fixed-size output buffer and advances the offset; fails with the "no space"
condition, writing nothing, when the buffer is full. -/
def write_u8 (buf : List Nat) (offset val : Nat) :
    Except Error (List Nat × Nat) :=
  if offset < buf.length then .ok (buf.set offset val, offset + 1)
  else .error .WriteZero

/-- Writes a list of bytes one after the other with `write_u8`. -/
def write_all (buf : List Nat) (offset : Nat) :
    List Nat → Except Error (List Nat × Nat)
  | [] => .ok (buf, offset)
  | b :: bs =>
    match write_u8 buf offset b with
    | .error e => .error e
    | .ok (buf2, off2) => write_all buf2 off2 bs

/-- Modelled from the spec (§4.1): the 1-4 byte Remaining-Length encoding of
`n ≤ 268435455`; each byte holds 7 value bits, the high bit is the
continuation bit.  Closed form over the four byte-count ranges of §8. -/
def encode_varint (n : Nat) : List Nat :=
  if n ≤ 127 then [n]
  else if n ≤ 16383 then [n % 128 + 128, n / 128]
  else if n ≤ 2097151 then [n % 128 + 128, n / 128 % 128 + 128, n / 16384]
  else [n % 128 + 128, n / 128 % 128 + 128, n / 16384 % 128 + 128,
    n / 2097152]

/-- Modelled from the spec (§4.1, §8): writes the Remaining-Length varint of
`len` and returns how many bytes it wrote; a value above 268435455 (2^28-1)
is rejected with `InvalidLength`. -/
def write_length (buf : List Nat) (offset len : Nat) :
    Except Error (Nat × List Nat × Nat) :=
  if 268435455 < len then .error .InvalidLength
  else
    match write_all buf offset (encode_varint len) with
    | .error e => .error e
    | .ok (buf2, off2) => .ok ((encode_varint len).length, buf2, off2)

/-- Modelled from the spec (§4.6): length-prefixed field writer, "2-byte
big-endian length + UTF-8 bytes"; the length prefix is the byte length
truncated to `u16` as by Rust's `as u16` cast. -/
def write_bytes (buf : List Nat) (offset : Nat) (bytes : List Nat) :
    Except Error (List Nat × Nat) :=
  write_all buf offset (bytes.length % 65536 / 256 :: bytes.length % 256 :: bytes)

/-- Modelled from the spec (§4.6): strings are carried as UTF-8 byte lists,
so `write_string` is `write_bytes`. -/
def write_string (buf : List Nat) (offset : Nat) (s : List Nat) :
    Except Error (List Nat × Nat) :=
  write_bytes buf offset s

/-- Modelled from the spec (§4.6): "Pid read/write: 2 bytes big-endian". -/
def Pid.to_buffer (p : Pid) (buf : List Nat) (offset : Nat) :
    Except Error (List Nat × Nat) :=
  write_all buf offset [p.value / 256 % 256, p.value % 256]

/-- The body length computed by `Subscribe::to_buffer`
(`src/subscribe.rs` lines 132-136): `pid(2) + topic.for_each(2+len + qos(1))`. -/
def subscribeLen (p : Subscribe) : Nat :=
  2 + (p.topics.map fun t => t.topic_path.length + 2 + 1).sum

/-- The body length computed by `Suback::to_buffer`
(`src/subscribe.rs` line 220). -/
def subackLen (p : Suback) : Nat :=
  2 + p.return_codes.length

/-- The body length computed by `Unsubscribe::to_buffer`
(`src/subscribe.rs` lines 178-181). -/
def unsubscribeLen (p : Unsubscribe) : Nat :=
  2 + (p.topics.map fun t => 2 + t.length).sum

/-- The topic-writing loop of `Subscribe::to_buffer`
(`src/subscribe.rs` lines 143-146). -/
def Subscribe.writeTopics : List SubscribeTopic → List Nat → Nat →
    Except Error (List Nat × Nat)
  | [], buf, offset => .ok (buf, offset)
  | t :: rest, buf, offset =>
    match write_string buf offset t.topic_path with
    | .error e => .error e
    | .ok (buf2, off2) =>
      match write_u8 buf2 off2 t.qos.to_u8 with
      | .error e => .error e
      | .ok (buf3, off3) => Subscribe.writeTopics rest buf3 off3

/-- The return-code-writing loop of `Suback::to_buffer`
(`src/subscribe.rs` lines 226-228). -/
def Suback.writeCodes : List SubscribeReturnCodes → List Nat → Nat →
    Except Error (List Nat × Nat)
  | [], buf, offset => .ok (buf, offset)
  | rc :: rest, buf, offset =>
    match write_u8 buf offset rc.to_u8 with
    | .error e => .error e
    | .ok (buf2, off2) => Suback.writeCodes rest buf2 off2

/-- The topic-writing loop of `Unsubscribe::to_buffer`
(`src/subscribe.rs` lines 187-189). -/
def Unsubscribe.writeTopics : List (List Nat) → List Nat → Nat →
    Except Error (List Nat × Nat)
  | [], buf, offset => .ok (buf, offset)
  | t :: rest, buf, offset =>
    match write_string buf offset t with
    | .error e => .error e
    | .ok (buf2, off2) => Unsubscribe.writeTopics rest buf2 off2

/-- `Subscribe::to_buffer` (`src/subscribe.rs` lines 127-149): header byte
`0b10000010`, varint body length, pid, topics; the returned `Ok` value is
`write_length(..)? + 1`. -/
def Subscribe.to_buffer (p : Subscribe) (buf : List Nat) (offset : Nat) :
    Except Error (Nat × List Nat × Nat) :=
  let header := 0b10000010
  match check_remaining buf offset 1 with
  | .error e => .error e
  | .ok _ =>
    match write_u8 buf offset header with
    | .error e => .error e
    | .ok (buf1, off1) =>
      let length := subscribeLen p
      match write_length buf1 off1 length with
      | .error e => .error e
      | .ok (n, buf2, off2) =>
        let write_len := n + 1
        match p.pid.to_buffer buf2 off2 with
        | .error e => .error e
        | .ok (buf3, off3) =>
          match Subscribe.writeTopics p.topics buf3 off3 with
          | .error e => .error e
          | .ok (buf4, off4) => .ok (write_len, buf4, off4)

/-- `Unsubscribe::to_buffer` (`src/subscribe.rs` lines 176-191): header byte
`0b10100010`; the returned `Ok` value is `write_length(..)? + 1`. -/
def Unsubscribe.to_buffer (p : Unsubscribe) (buf : List Nat) (offset : Nat) :
    Except Error (Nat × List Nat × Nat) :=
  let header := 0b10100010
  let length := unsubscribeLen p
  match check_remaining buf offset 1 with
  | .error e => .error e
  | .ok _ =>
    match write_u8 buf offset header with
    | .error e => .error e
    | .ok (buf1, off1) =>
      match write_length buf1 off1 length with
      | .error e => .error e
      | .ok (n, buf2, off2) =>
        let write_len := n + 1
        match p.pid.to_buffer buf2 off2 with
        | .error e => .error e
        | .ok (buf3, off3) =>
          match Unsubscribe.writeTopics p.topics buf3 off3 with
          | .error e => .error e
          | .ok (buf4, off4) => .ok (write_len, buf4, off4)

/-- `Suback::to_buffer` (`src/subscribe.rs` lines 218-230): header byte
`0b10010000`; the returned `Ok` value is `write_length(..)? + 1`. -/
def Suback.to_buffer (p : Suback) (buf : List Nat) (offset : Nat) :
    Except Error (Nat × List Nat × Nat) :=
  let header := 0b10010000
  let length := subackLen p
  match check_remaining buf offset 1 with
  | .error e => .error e
  | .ok _ =>
    match write_u8 buf offset header with
    | .error e => .error e
    | .ok (buf1, off1) =>
      match write_length buf1 off1 length with
      | .error e => .error e
      | .ok (n, buf2, off2) =>
        let write_len := n + 1
        match p.pid.to_buffer buf2 off2 with
        | .error e => .error e
        | .ok (buf3, off3) =>
          match Suback.writeCodes p.return_codes buf3 off3 with
          | .error e => .error e
          | .ok (buf4, off4) => .ok (write_len, buf4, off4)

/-- Modelled from the spec (§4.1): the multiplier cap of the legacy length
decoder; the accumulated multiplier may not exceed the 4-byte maximum
`0x80^4`, so valid 1-4 byte encodings are accepted and a fifth continuation
byte is rejected. -/
def MULTIPLIER : Nat := 0x80 * 0x80 * 0x80 * 0x80

/-- The `while !done` loop of the legacy `read_length`
(`src/decoder.rs` lines 72-84): reads `buffer.get(pos).unwrap()` (panics past
the end of the buffer, modelled as `none`), accumulates `byte & 0x7F` scaled
by the current multiplier, multiplies the multiplier by 0x80, rejects when it
exceeds `MULTIPLIER` (Rust `None`, modelled as `some none`), and stops at a
byte with a clear continuation bit, returning the accumulated length and the
position of that terminating byte. -/
def readLengthLoop (buffer : List Nat) (pos mult len : Nat) :
    Option (Option (Nat × Nat)) :=
  if hpos : pos < buffer.length then
    let byte := buffer[pos]
    let len2 := len + (byte &&& 0x7F) * mult
    let mult2 := mult * 0x80
    if MULTIPLIER < mult2 then some none
    else if byte &&& 0x80 = 0 then some (some (len2, pos))
    else readLengthLoop buffer (pos + 1) mult2 len2
  else none
termination_by buffer.length - pos

/-- The legacy `read_length` (`src/decoder.rs` lines 67-86): the loop started
with `mult = 1`, `len = 0`. -/
def read_length (buffer : List Nat) (pos : Nat) : Option (Option (Nat × Nat)) :=
  readLengthLoop buffer pos 1 0

/-- The packet-type enum used by the legacy decode path of `src/decoder.rs`
(defined in a repository file not provided; variant names as used there). -/
inductive LegacyPacketType where
  | Connect | Connack | Publish | Puback | Pubrec | Pubrel | PubComp
  | Subscribe | SubAck | UnSubscribe | UnSubAck | PingReq | PingResp
  | Disconnect
  deriving DecidableEq, Repr

/-- The packet enum used by the legacy decode path of `src/decoder.rs`
(defined in a repository file not provided): per the spec (§9), the per-type
handlers stub every real packet to the empty placeholder `Packet::None`. -/
inductive LegacyPacket where
  | None | PingReq | PingResp | Disconnect
  deriving DecidableEq, Repr

/-- The legacy `read_packet` (`src/decoder.rs` lines 33-51): every packet
type, including the catch-all `_` arm, yields the placeholder
`Packet::None`; the payload bytes are ignored. -/
def read_packet (t : LegacyPacketType) (buffer : List Nat) : LegacyPacket :=
  match t with
  | .Connect => .None
  | .Connack => .None
  | .Publish => .None
  | .Puback => .None
  | .Pubrec => .None
  | .Pubrel => .None
  | .PubComp => .None
  | .Subscribe => .None
  | .SubAck => .None
  | .UnSubscribe => .None
  | .UnSubAck => .None
  | _ => .None

/-- Pure byte-level form of a length-prefixed string as written by
`write_string`. -/
def encStr (s : List Nat) : List Nat :=
  s.length % 65536 / 256 :: s.length % 256 :: s

/-- Pure byte-level form of a subscribe topic as written by the loop of
`Subscribe::to_buffer`. -/
def SubscribeTopic.enc (t : SubscribeTopic) : List Nat :=
  encStr t.topic_path ++ [t.qos.to_u8]

/-- Concatenated encodings of a list of elements. -/
def encList {α : Type} (f : α → List Nat) : List α → List Nat
  | [] => []
  | x :: xs => f x ++ encList f xs

/-- Pure byte-level form of a big-endian `Pid` as written by
`Pid::to_buffer`. -/
def encPid (p : Pid) : List Nat := [p.value / 256 % 256, p.value % 256]

/-- Pure byte-level form of a full Subscribe packet: header byte, varint
remaining length, pid, topics. -/
def encSubscribe (p : Subscribe) : List Nat :=
  0b10000010 :: (encode_varint (subscribeLen p) ++ encPid p.pid ++
    encList SubscribeTopic.enc p.topics)

/-- Pure byte-level form of a full Suback packet. -/
def encSuback (p : Suback) : List Nat :=
  0b10010000 :: (encode_varint (subackLen p) ++ encPid p.pid ++
    encList (fun rc => [rc.to_u8]) p.return_codes)

/-- Pure byte-level form of a full Unsubscribe packet. -/
def encUnsubscribe (p : Unsubscribe) : List Nat :=
  0b10100010 :: (encode_varint (unsubscribeLen p) ++ encPid p.pid ++
    encList encStr p.topics)

theorem encList_length {α : Type} (f : α → List Nat) (xs : List α) :
    (encList f xs).length = (xs.map fun x => (f x).length).sum := by
  induction xs with
  | nil => rfl
  | cons x xs ih => simp [encList, ih]

theorem encStr_length (s : List Nat) : (encStr s).length = 2 + s.length := by
  simp [encStr]
  omega

theorem SubscribeTopic.enc_length (t : SubscribeTopic) :
    t.enc.length = t.topic_path.length + 2 + 1 := by
  simp [SubscribeTopic.enc, encStr_length]
  omega

theorem write_u8_ok {buf : List Nat} {off v : Nat} {buf' : List Nat}
    {off' : Nat} (h : write_u8 buf off v = .ok (buf', off')) :
    off < buf.length ∧ buf' = buf.set off v ∧ off' = off + 1 := by
  unfold write_u8 at h
  split at h
  · rename_i hlt
    simp only [Except.ok.injEq, Prod.mk.injEq] at h
    exact ⟨hlt, h.1.symm, h.2.symm⟩
  · exact absurd h (by simp)

/-- A successful `write_all` writes exactly its byte list at the offset and
advances the offset by its length, leaving the rest of the buffer intact. -/
theorem write_all_ok : ∀ {bs : List Nat} {buf : List Nat} {off : Nat}
    {buf' : List Nat} {off' : Nat}, write_all buf off bs = .ok (buf', off') →
    buf' = buf.take off ++ bs ++ buf.drop (off + bs.length) ∧
    off' = off + bs.length := by
  intro bs
  induction bs with
  | nil =>
    intro buf off buf' off' h
    obtain ⟨h1, h2⟩ : buf = buf' ∧ off = off' := by
      simpa [write_all] using h
    subst h1 h2
    simp
  | cons b bs ih =>
    intro buf off buf' off' h
    simp only [write_all] at h
    cases hw : write_u8 buf off b with
    | error e => rw [hw] at h; exact absurd h (by simp)
    | ok r =>
      obtain ⟨buf2, off2⟩ := r
      rw [hw] at h
      obtain ⟨hlt, hbuf2, hoff2⟩ := write_u8_ok hw
      subst hbuf2 hoff2
      obtain ⟨ih2, ih3⟩ := ih h
      have htake : (buf.take off).length = off := by
        simp
        omega
      have hsplit : buf.set off b = (buf.take off ++ [b]) ++ buf.drop (off + 1) := by
        rw [List.set_eq_take_cons_drop b hlt]
        simp
      have htk : (buf.set off b).take (off + 1) = buf.take off ++ [b] := by
        rw [hsplit]
        exact List.take_left' (by simp; omega)
      have hdr : (buf.set off b).drop (off + 1 + bs.length) =
          buf.drop (off + 1 + bs.length) := by
        rw [List.drop_set]
        simp only [if_pos (show off < off + 1 + bs.length by omega)]
      refine ⟨?_, by simp; omega⟩
      rw [ih2, htk, hdr]
      have harith : off + 1 + bs.length = off + (b :: bs).length := by
        simp
        omega
      rw [harith]
      simp [List.append_assoc]

theorem write_all_append {bs1 bs2 : List Nat} : ∀ {buf : List Nat} {off : Nat}
    {b1 : List Nat} {o1 : Nat} {b2 : List Nat} {o2 : Nat},
    write_all buf off bs1 = .ok (b1, o1) → write_all b1 o1 bs2 = .ok (b2, o2) →
    write_all buf off (bs1 ++ bs2) = .ok (b2, o2) := by
  induction bs1 with
  | nil =>
    intro buf off b1 o1 b2 o2 h1 h2
    obtain ⟨ha, hb⟩ : buf = b1 ∧ off = o1 := by simpa [write_all] using h1
    subst ha hb
    simpa using h2
  | cons b bs ih =>
    intro buf off b1 o1 b2 o2 h1 h2
    simp only [write_all] at h1
    simp only [List.cons_append, write_all]
    cases hw : write_u8 buf off b with
    | error e => rw [hw] at h1; exact absurd h1 (by simp)
    | ok r =>
      obtain ⟨bufm, offm⟩ := r
      rw [hw] at h1
      exact ih h1 h2

theorem write_all_singleton {buf : List Nat} {off v : Nat} {buf2 : List Nat}
    {off2 : Nat} (h : write_u8 buf off v = .ok (buf2, off2)) :
    write_all buf off [v] = .ok (buf2, off2) := by
  simp only [write_all]
  rw [h]

theorem write_length_ok {buf : List Nat} {off n k : Nat} {buf2 : List Nat}
    {off2 : Nat} (h : write_length buf off n = .ok (k, buf2, off2)) :
    n ≤ 268435455 ∧ k = (encode_varint n).length ∧
    write_all buf off (encode_varint n) = .ok (buf2, off2) := by
  unfold write_length at h
  split at h
  · exact absurd h (by simp)
  · rename_i hle
    cases hw : write_all buf off (encode_varint n) with
    | error e => rw [hw] at h; exact absurd h (by simp)
    | ok r =>
      obtain ⟨b2, o2⟩ := r
      rw [hw] at h
      simp only [Except.ok.injEq, Prod.mk.injEq] at h
      obtain ⟨hk, hb, ho⟩ := h
      subst hb
      subst ho
      exact ⟨by omega, hk.symm, rfl⟩

theorem subscribe_writeTopics_ok : ∀ {ts : List SubscribeTopic}
    {buf : List Nat} {off : Nat} {buf' : List Nat} {off' : Nat},
    Subscribe.writeTopics ts buf off = .ok (buf', off') →
    write_all buf off (encList SubscribeTopic.enc ts) = .ok (buf', off') := by
  intro ts
  induction ts with
  | nil =>
    intro buf off buf' off' h
    simpa [Subscribe.writeTopics, write_all, encList] using h
  | cons t ts ih =>
    intro buf off buf' off' h
    simp only [Subscribe.writeTopics] at h
    cases hw : write_string buf off t.topic_path with
    | error e => simp [hw] at h
    | ok r =>
      obtain ⟨buf2, off2⟩ := r
      simp only [hw] at h
      cases hq : write_u8 buf2 off2 t.qos.to_u8 with
      | error e => simp [hq] at h
      | ok r2 =>
        obtain ⟨buf3, off3⟩ := r2
        simp only [hq] at h
        have hws : write_all buf off (encStr t.topic_path) = .ok (buf2, off2) := hw
        have hq1 : write_all buf2 off2 [t.qos.to_u8] = .ok (buf3, off3) :=
          write_all_singleton hq
        have : write_all buf off (encStr t.topic_path ++ [t.qos.to_u8]) =
            .ok (buf3, off3) := write_all_append hws hq1
        simpa [encList, SubscribeTopic.enc, List.append_assoc] using
          write_all_append this (ih h)

theorem Suback.writeCodes_ok : ∀ {rcs : List SubscribeReturnCodes}
    {buf : List Nat} {off : Nat} {buf' : List Nat} {off' : Nat},
    Suback.writeCodes rcs buf off = .ok (buf', off') →
    write_all buf off (encList (fun rc => [rc.to_u8]) rcs) = .ok (buf', off') := by
  intro rcs
  induction rcs with
  | nil =>
    intro buf off buf' off' h
    simpa [Suback.writeCodes, write_all, encList] using h
  | cons rc rcs ih =>
    intro buf off buf' off' h
    simp only [Suback.writeCodes] at h
    cases hw : write_u8 buf off rc.to_u8 with
    | error e => simp [hw] at h
    | ok r =>
      obtain ⟨buf2, off2⟩ := r
      simp only [hw] at h
      simpa [encList, List.append_assoc] using
        write_all_append (write_all_singleton hw) (ih h)

theorem unsubscribe_writeTopics_ok : ∀ {ts : List (List Nat)}
    {buf : List Nat} {off : Nat} {buf' : List Nat} {off' : Nat},
    Unsubscribe.writeTopics ts buf off = .ok (buf', off') →
    write_all buf off (encList encStr ts) = .ok (buf', off') := by
  intro ts
  induction ts with
  | nil =>
    intro buf off buf' off' h
    simpa [Unsubscribe.writeTopics, write_all, encList] using h
  | cons t ts ih =>
    intro buf off buf' off' h
    simp only [Unsubscribe.writeTopics] at h
    cases hw : write_string buf off t with
    | error e => simp [hw] at h
    | ok r =>
      obtain ⟨buf2, off2⟩ := r
      simp only [hw] at h
      have hws : write_all buf off (encStr t) = .ok (buf2, off2) := hw
      simpa [encList, List.append_assoc] using write_all_append hws (ih h)

/-- A successful `Subscribe::to_buffer` behaves as one `write_all` of the
pure packet encoding; the returned `Ok` value is 1 + the varint byte
count. -/
theorem subscribe_to_buffer_ok {p : Subscribe} {buf : List Nat} {off w : Nat}
    {buf' : List Nat} {off' : Nat}
    (h : Subscribe.to_buffer p buf off = .ok (w, buf', off')) :
    subscribeLen p ≤ 268435455 ∧
    w = 1 + (encode_varint (subscribeLen p)).length ∧
    write_all buf off (encSubscribe p) = .ok (buf', off') := by
  unfold Subscribe.to_buffer at h
  dsimp only at h
  cases hc : check_remaining buf off 1 with
  | error e => simp [hc] at h
  | ok u =>
    simp only [hc] at h
    cases h1 : write_u8 buf off 0b10000010 with
    | error e => simp [h1] at h
    | ok r1 =>
      obtain ⟨buf1, off1⟩ := r1
      simp only [h1] at h
      cases h2 : write_length buf1 off1 (subscribeLen p) with
      | error e => simp [h2] at h
      | ok r2 =>
        obtain ⟨n, buf2, off2⟩ := r2
        simp only [h2] at h
        cases h3 : p.pid.to_buffer buf2 off2 with
        | error e => simp [h3] at h
        | ok r3 =>
          obtain ⟨buf3, off3⟩ := r3
          simp only [h3] at h
          cases h4 : Subscribe.writeTopics p.topics buf3 off3 with
          | error e => simp [h4] at h
          | ok r4 =>
            obtain ⟨buf4, off4⟩ := r4
            simp only [h4] at h
            simp only [Except.ok.injEq, Prod.mk.injEq] at h
            obtain ⟨hw, hb, ho⟩ := h
            subst hw hb ho
            obtain ⟨hle, hn, hva⟩ := write_length_ok h2
            subst hn
            refine ⟨hle, by omega, ?_⟩
            have hp : write_all buf2 off2 (encPid p.pid) = .ok (buf3, off3) := h3
            have c1 := write_all_append (write_all_singleton h1) hva
            have c2 := write_all_append c1 hp
            have c3 := write_all_append c2 (subscribe_writeTopics_ok h4)
            simpa [encSubscribe, List.append_assoc] using c3

/-- A successful `Suback::to_buffer` behaves as one `write_all` of the pure
packet encoding; the returned `Ok` value is 1 + the varint byte count. -/
theorem suback_to_buffer_ok {p : Suback} {buf : List Nat} {off w : Nat}
    {buf' : List Nat} {off' : Nat}
    (h : Suback.to_buffer p buf off = .ok (w, buf', off')) :
    subackLen p ≤ 268435455 ∧
    w = 1 + (encode_varint (subackLen p)).length ∧
    write_all buf off (encSuback p) = .ok (buf', off') := by
  unfold Suback.to_buffer at h
  dsimp only at h
  cases hc : check_remaining buf off 1 with
  | error e => simp [hc] at h
  | ok u =>
    simp only [hc] at h
    cases h1 : write_u8 buf off 0b10010000 with
    | error e => simp [h1] at h
    | ok r1 =>
      obtain ⟨buf1, off1⟩ := r1
      simp only [h1] at h
      cases h2 : write_length buf1 off1 (subackLen p) with
      | error e => simp [h2] at h
      | ok r2 =>
        obtain ⟨n, buf2, off2⟩ := r2
        simp only [h2] at h
        cases h3 : p.pid.to_buffer buf2 off2 with
        | error e => simp [h3] at h
        | ok r3 =>
          obtain ⟨buf3, off3⟩ := r3
          simp only [h3] at h
          cases h4 : Suback.writeCodes p.return_codes buf3 off3 with
          | error e => simp [h4] at h
          | ok r4 =>
            obtain ⟨buf4, off4⟩ := r4
            simp only [h4] at h
            simp only [Except.ok.injEq, Prod.mk.injEq] at h
            obtain ⟨hw, hb, ho⟩ := h
            subst hw hb ho
            obtain ⟨hle, hn, hva⟩ := write_length_ok h2
            subst hn
            refine ⟨hle, by omega, ?_⟩
            have hp : write_all buf2 off2 (encPid p.pid) = .ok (buf3, off3) := h3
            have c1 := write_all_append (write_all_singleton h1) hva
            have c2 := write_all_append c1 hp
            have c3 := write_all_append c2 (Suback.writeCodes_ok h4)
            simpa [encSuback, List.append_assoc] using c3

/-- A successful `Unsubscribe::to_buffer` behaves as one `write_all` of the
pure packet encoding; the returned `Ok` value is 1 + the varint byte
count. -/
theorem unsubscribe_to_buffer_ok {p : Unsubscribe} {buf : List Nat}
    {off w : Nat} {buf' : List Nat} {off' : Nat}
    (h : Unsubscribe.to_buffer p buf off = .ok (w, buf', off')) :
    unsubscribeLen p ≤ 268435455 ∧
    w = 1 + (encode_varint (unsubscribeLen p)).length ∧
    write_all buf off (encUnsubscribe p) = .ok (buf', off') := by
  unfold Unsubscribe.to_buffer at h
  dsimp only at h
  cases hc : check_remaining buf off 1 with
  | error e => simp [hc] at h
  | ok u =>
    simp only [hc] at h
    cases h1 : write_u8 buf off 0b10100010 with
    | error e => simp [h1] at h
    | ok r1 =>
      obtain ⟨buf1, off1⟩ := r1
      simp only [h1] at h
      cases h2 : write_length buf1 off1 (unsubscribeLen p) with
      | error e => simp [h2] at h
      | ok r2 =>
        obtain ⟨n, buf2, off2⟩ := r2
        simp only [h2] at h
        cases h3 : p.pid.to_buffer buf2 off2 with
        | error e => simp [h3] at h
        | ok r3 =>
          obtain ⟨buf3, off3⟩ := r3
          simp only [h3] at h
          cases h4 : Unsubscribe.writeTopics p.topics buf3 off3 with
          | error e => simp [h4] at h
          | ok r4 =>
            obtain ⟨buf4, off4⟩ := r4
            simp only [h4] at h
            simp only [Except.ok.injEq, Prod.mk.injEq] at h
            obtain ⟨hw, hb, ho⟩ := h
            subst hw hb ho
            obtain ⟨hle, hn, hva⟩ := write_length_ok h2
            subst hn
            refine ⟨hle, by omega, ?_⟩
            have hp : write_all buf2 off2 (encPid p.pid) = .ok (buf3, off3) := h3
            have c1 := write_all_append (write_all_singleton h1) hva
            have c2 := write_all_append c1 hp
            have c3 := write_all_append c2 (unsubscribe_writeTopics_ok h4)
            simpa [encUnsubscribe, List.append_assoc] using c3

theorem getElem?_append_add (pre l : List Nat) (k : Nat) :
    (pre ++ l)[pre.length + k]? = l[k]? := by
  rw [List.getElem?_append_right (by omega)]
  congr 1
  omega

theorem getElem?_at_append (pre : List Nat) (b : Nat) (rest : List Nat)
    {i : Nat} (hi : i = pre.length) : (pre ++ b :: rest)[i]? = some b := by
  subst hi
  simpa using getElem?_append_add pre (b :: rest) 0

/-- `read_bytes` at the start of an encoded string decodes exactly that
string. -/
theorem read_bytes_spec (pre s rest : List Nat) (hs : s.length < 65536) :
    read_bytes (pre ++ (encStr s ++ rest)) pre.length =
      .ok s (pre.length + 2 + s.length) := by
  unfold read_bytes
  have h0 : (pre ++ (encStr s ++ rest))[pre.length]? =
      some (s.length % 65536 / 256) := by
    have := getElem?_append_add pre (encStr s ++ rest) 0
    simpa [encStr] using this
  have h1 : (pre ++ (encStr s ++ rest))[pre.length + 1]? =
      some (s.length % 256) := by
    have := getElem?_append_add pre (encStr s ++ rest) 1
    simpa [encStr] using this
  simp only [h0, h1]
  have hlen : s.length % 65536 / 256 * 256 + s.length % 256 = s.length := by
    omega
  have hblen : (pre ++ (encStr s ++ rest)).length =
      pre.length + (2 + s.length) + rest.length := by
    simp [encStr_length]
    omega
  rw [if_neg (by omega)]
  rw [hlen]
  have hdrop : (pre ++ (encStr s ++ rest)).drop (pre.length + 2) =
      s ++ rest := by
    have h2 := @List.drop_append Nat pre (encStr s ++ rest) 2
    rw [h2]
    simp [encStr]
  rw [hdrop, List.take_left' rfl]

theorem read_str_spec (pre s rest : List Nat) (hs : s.length < 65536) :
    read_str (pre ++ (encStr s ++ rest)) pre.length =
      .ok s (pre.length + 2 + s.length) :=
  read_bytes_spec pre s rest hs

theorem QoS.from_to (q : QoS) : QoS.from_u8 q.to_u8 = .ok q := by
  cases q <;> rfl

/-- `SubscribeReturnCodes::from_buffer` at the start of an encoded return
code decodes exactly that code. -/
theorem retcode_from_buffer_spec (pre rest : List Nat)
    (rc : SubscribeReturnCodes) :
    SubscribeReturnCodes.from_buffer (pre ++ rc.to_u8 :: rest) pre.length =
      .ok rc (pre.length + 1) := by
  unfold SubscribeReturnCodes.from_buffer
  have hlt : pre.length < (pre ++ rc.to_u8 :: rest).length := by
    simp
  rw [dif_pos hlt]
  have hb : (pre ++ rc.to_u8 :: rest)[pre.length]? = some rc.to_u8 :=
    getElem?_at_append pre rc.to_u8 rest rfl
  obtain ⟨hpf, hbv⟩ := List.getElem?_eq_some.mp hb
  simp only [hbv]
  cases rc with
  | Failure => simp [SubscribeReturnCodes.to_u8]
  | Success q =>
    cases q <;>
      simp [SubscribeReturnCodes.to_u8, QoS.to_u8, QoS.from_u8]

/-- `Pid::from_buffer` at the start of an encoded pid decodes exactly that
pid, for a pid respecting the structural invariant (nonzero, 16 bits). -/
theorem pid_from_buffer_spec (pre rest : List Nat) (p : Pid)
    (h1 : 0 < p.value) (h2 : p.value < 65536) :
    Pid.from_buffer (pre ++ (encPid p ++ rest)) pre.length =
      .ok p (pre.length + 2) := by
  unfold Pid.from_buffer
  have h0 : (pre ++ (encPid p ++ rest))[pre.length]? =
      some (p.value / 256 % 256) := by
    have := getElem?_append_add pre (encPid p ++ rest) 0
    simpa [encPid] using this
  have hb : (pre ++ (encPid p ++ rest))[pre.length + 1]? =
      some (p.value % 256) := by
    have := getElem?_append_add pre (encPid p ++ rest) 1
    simpa [encPid] using this
  simp only [h0, hb]
  have hv : p.value / 256 % 256 * 256 + p.value % 256 = p.value := by omega
  rw [hv]
  unfold Pid.try_from
  rw [if_neg (by omega)]

/-- `SubscribeTopic::from_buffer` at the start of an encoded topic decodes
exactly that topic. -/
theorem topic_from_buffer_spec (pre rest : List Nat)
    (t : SubscribeTopic) (hs : t.topic_path.length < 65536) :
    SubscribeTopic.from_buffer (pre ++ (t.enc ++ rest)) pre.length =
      .ok t (pre.length + t.enc.length) := by
  have heq : pre ++ (t.enc ++ rest) =
      pre ++ (encStr t.topic_path ++ (t.qos.to_u8 :: rest)) := by
    simp [SubscribeTopic.enc, List.append_assoc]
  rw [heq]
  unfold SubscribeTopic.from_buffer
  have hr := read_str_spec pre t.topic_path (t.qos.to_u8 :: rest) hs
  simp only [hr]
  have heq2 : pre ++ (encStr t.topic_path ++ (t.qos.to_u8 :: rest)) =
      (pre ++ encStr t.topic_path) ++ t.qos.to_u8 :: rest := by
    simp [List.append_assoc]
  have hi : pre.length + 2 + t.topic_path.length =
      (pre ++ encStr t.topic_path).length := by
    simp [encStr_length]
    omega
  have hb : (pre ++ (encStr t.topic_path ++
      (t.qos.to_u8 :: rest)))[pre.length + 2 + t.topic_path.length]? =
      some t.qos.to_u8 := by
    rw [heq2]
    exact getElem?_at_append _ _ _ hi
  obtain ⟨hpf, hbv⟩ := List.getElem?_eq_some.mp hb
  rw [dif_pos hpf]
  simp only [hbv, QoS.from_to]
  have harith : pre.length + 2 + t.topic_path.length + 1 =
      pre.length + t.enc.length := by
    rw [SubscribeTopic.enc_length]
    omega
  rw [harith]

/-- The topic loop of `Subscribe::from_buffer`, run over exactly the encoded
topic list, returns those topics and stops exactly at the boundary. -/
theorem subscribe_readTopics_spec : ∀ (ts : List SubscribeTopic)
    (pre rest : List Nat) (acc : List SubscribeTopic),
    (∀ t ∈ ts, t.topic_path.length < 65536) →
    Subscribe.readTopics (pre ++ (encList SubscribeTopic.enc ts ++ rest))
      (pre.length + (encList SubscribeTopic.enc ts).length) pre.length acc =
      .ok (acc ++ ts) (pre.length + (encList SubscribeTopic.enc ts).length) := by
  intro ts
  induction ts with
  | nil =>
    intro pre rest acc hv
    simp only [encList, List.nil_append, List.length_nil, Nat.add_zero,
      List.append_nil]
    exact subscribe_readTopics_stop _ _ _ _ (by omega)
  | cons t ts ih =>
    intro pre rest acc hv
    have hvt : t.topic_path.length < 65536 := hv t (by simp)
    have hL : encList SubscribeTopic.enc (t :: ts) =
        t.enc ++ encList SubscribeTopic.enc ts := rfl
    rw [hL]
    have hassoc : pre ++ (t.enc ++ encList SubscribeTopic.enc ts ++ rest) =
        pre ++ (t.enc ++ (encList SubscribeTopic.enc ts ++ rest)) := by
      simp [List.append_assoc]
    rw [hassoc]
    have hel := topic_from_buffer_spec pre
      (encList SubscribeTopic.enc ts ++ rest) t hvt
    rw [subscribe_readTopics_step_ok _ _ _ _
      (show pre.length < pre.length +
          (t.enc ++ encList SubscribeTopic.enc ts).length by
        simp only [List.length_append, SubscribeTopic.enc_length]
        omega) hel]
    have ih2 := ih (pre ++ t.enc) rest (acc ++ [t])
      (fun t' ht' => hv t' (by simp [ht']))
    rw [show (pre ++ t.enc) ++ (encList SubscribeTopic.enc ts ++ rest) =
        pre ++ (t.enc ++ (encList SubscribeTopic.enc ts ++ rest)) by
      simp [List.append_assoc]] at ih2
    rw [show (pre ++ t.enc).length = pre.length + t.enc.length by simp] at ih2
    rw [show pre.length + (t.enc ++ encList SubscribeTopic.enc ts).length =
        pre.length + t.enc.length + (encList SubscribeTopic.enc ts).length by
      simp
      omega]
    rw [ih2]
    simp

/-- The return-code loop of `Suback::from_buffer`, run over exactly the
encoded return-code list, returns those codes and stops exactly at the
boundary. -/
theorem Suback.readCodes_spec : ∀ (rcs : List SubscribeReturnCodes)
    (pre rest : List Nat) (acc : List SubscribeReturnCodes),
    Suback.readCodes (pre ++ (encList (fun rc => [rc.to_u8]) rcs ++ rest))
      (pre.length + (encList (fun rc => [rc.to_u8]) rcs).length) pre.length
      acc =
      .ok (acc ++ rcs)
        (pre.length + (encList (fun rc => [rc.to_u8]) rcs).length) := by
  intro rcs
  induction rcs with
  | nil =>
    intro pre rest acc
    simp only [encList, List.nil_append, List.length_nil, Nat.add_zero,
      List.append_nil]
    exact Suback.readCodes_stop _ _ _ _ (by omega)
  | cons rc rcs ih =>
    intro pre rest acc
    have hL : encList (fun rc => [rc.to_u8]) (rc :: rcs) =
        rc.to_u8 :: encList (fun rc => [rc.to_u8]) rcs := rfl
    rw [hL]
    have hassoc : pre ++ ((rc.to_u8 :: encList (fun rc => [rc.to_u8]) rcs) ++
        rest) = pre ++ rc.to_u8 :: (encList (fun rc => [rc.to_u8]) rcs ++
        rest) := by
      simp
    rw [hassoc]
    have hel := retcode_from_buffer_spec pre
      (encList (fun rc => [rc.to_u8]) rcs ++ rest) rc
    rw [Suback.readCodes_step_ok _ _ _ _
      (show pre.length < pre.length +
          (rc.to_u8 :: encList (fun rc => [rc.to_u8]) rcs).length by
        simp) hel]
    have ih2 := ih (pre ++ [rc.to_u8]) rest (acc ++ [rc])
    rw [show (pre ++ [rc.to_u8]) ++
        (encList (fun rc => [rc.to_u8]) rcs ++ rest) =
        pre ++ rc.to_u8 :: (encList (fun rc => [rc.to_u8]) rcs ++ rest) by
      simp] at ih2
    rw [show (pre ++ [rc.to_u8]).length = pre.length + 1 by simp] at ih2
    rw [show pre.length +
        (rc.to_u8 :: encList (fun rc => [rc.to_u8]) rcs).length =
        pre.length + 1 + (encList (fun rc => [rc.to_u8]) rcs).length by
      simp
      omega]
    rw [ih2]
    simp

/-- The topic loop of `Unsubscribe::from_buffer`, run over exactly the
encoded topic-string list, returns those strings and stops exactly at the
boundary. -/
theorem unsubscribe_readTopics_spec : ∀ (ts : List (List Nat))
    (pre rest : List Nat) (acc : List (List Nat)),
    (∀ t ∈ ts, t.length < 65536) →
    Unsubscribe.readTopics (pre ++ (encList encStr ts ++ rest))
      (pre.length + (encList encStr ts).length) pre.length acc =
      .ok (acc ++ ts) (pre.length + (encList encStr ts).length) := by
  intro ts
  induction ts with
  | nil =>
    intro pre rest acc hv
    simp only [encList, List.nil_append, List.length_nil, Nat.add_zero,
      List.append_nil]
    exact unsubscribe_readTopics_stop _ _ _ _ (by omega)
  | cons t ts ih =>
    intro pre rest acc hv
    have hvt : t.length < 65536 := hv t (by simp)
    have hL : encList encStr (t :: ts) = encStr t ++ encList encStr ts := rfl
    rw [hL]
    have hassoc : pre ++ ((encStr t ++ encList encStr ts) ++ rest) =
        pre ++ (encStr t ++ (encList encStr ts ++ rest)) := by
      simp [List.append_assoc]
    rw [hassoc]
    have hel := read_str_spec pre t (encList encStr ts ++ rest) hvt
    rw [unsubscribe_readTopics_step_ok _ _ _ _
      (show pre.length < pre.length +
          (encStr t ++ encList encStr ts).length by
        simp [encStr_length]) hel]
    have ih2 := ih (pre ++ encStr t) rest (acc ++ [t])
      (fun t' ht' => hv t' (by simp [ht']))
    rw [show (pre ++ encStr t) ++ (encList encStr ts ++ rest) =
        pre ++ (encStr t ++ (encList encStr ts ++ rest)) by
      simp [List.append_assoc]] at ih2
    rw [show (pre ++ encStr t).length = pre.length + 2 + t.length by
      simp [encStr_length]
      omega] at ih2
    rw [show pre.length + (encStr t ++ encList encStr ts).length =
        pre.length + 2 + t.length + (encList encStr ts).length by
      simp [encStr_length]
      omega]
    rw [ih2]
    simp

theorem subscribeLen_eq (p : Subscribe) :
    subscribeLen p = 2 + (encList SubscribeTopic.enc p.topics).length := by
  rw [subscribeLen, encList_length,
    show (fun t : SubscribeTopic => (SubscribeTopic.enc t).length) =
      (fun t : SubscribeTopic => t.topic_path.length + 2 + 1) from
      funext SubscribeTopic.enc_length]

theorem encList_to_u8_length (rcs : List SubscribeReturnCodes) :
    (encList (fun rc => [rc.to_u8]) rcs).length = rcs.length := by
  induction rcs with
  | nil => rfl
  | cons rc rcs ih => simp [encList, ih]

theorem subackLen_eq (p : Suback) :
    subackLen p = 2 + (encList (fun rc => [rc.to_u8]) p.return_codes).length := by
  rw [subackLen, encList_to_u8_length]

theorem unsubscribeLen_eq (p : Unsubscribe) :
    unsubscribeLen p = 2 + (encList encStr p.topics).length := by
  rw [unsubscribeLen, encList_length,
    show (fun t : List Nat => (encStr t).length) =
      (fun t : List Nat => 2 + t.length) from funext encStr_length]

/-- `Subscribe::from_buffer`, fed the body bytes produced by the encoder and
exactly the body length as `remaining_len`, returns the original packet and
consumes exactly `remaining_len` bytes. -/
theorem subscribe_from_buffer_spec (pre rest : List Nat) (p : Subscribe)
    (hpid1 : 0 < p.pid.value) (hpid2 : p.pid.value < 65536)
    (hts : ∀ t ∈ p.topics, t.topic_path.length < 65536) :
    Subscribe.from_buffer (subscribeLen p)
      (pre ++ (encPid p.pid ++ (encList SubscribeTopic.enc p.topics ++ rest)))
      pre.length = .ok p (pre.length + subscribeLen p) := by
  obtain ⟨pid, ts⟩ := p
  apply subscribe_from_buffer_ok_of
    (pid_from_buffer_spec pre
      (encList SubscribeTopic.enc ts ++ rest) pid hpid1 hpid2)
  have hrt := subscribe_readTopics_spec ts (pre ++ encPid pid) rest [] hts
  rw [show (pre ++ encPid pid) ++ (encList SubscribeTopic.enc ts ++ rest) =
      pre ++ (encPid pid ++ (encList SubscribeTopic.enc ts ++ rest)) by
    simp [List.append_assoc]] at hrt
  rw [show (pre ++ encPid pid).length = pre.length + 2 by simp [encPid]] at hrt
  rw [show pre.length + 2 + (encList SubscribeTopic.enc ts).length =
      pre.length + subscribeLen ⟨pid, ts⟩ by
    rw [subscribeLen_eq]
    dsimp only
    omega] at hrt
  simpa using hrt

/-- `Suback::from_buffer`, fed the body bytes produced by the encoder and
exactly the body length as `remaining_len`. -/
theorem suback_from_buffer_spec (pre rest : List Nat) (p : Suback)
    (hpid1 : 0 < p.pid.value) (hpid2 : p.pid.value < 65536) :
    Suback.from_buffer (subackLen p)
      (pre ++ (encPid p.pid ++
        (encList (fun rc => [rc.to_u8]) p.return_codes ++ rest)))
      pre.length = .ok p (pre.length + subackLen p) := by
  obtain ⟨pid, rcs⟩ := p
  apply suback_from_buffer_ok_of
    (pid_from_buffer_spec pre
      (encList (fun rc => [rc.to_u8]) rcs ++ rest) pid hpid1 hpid2)
  have hrt := Suback.readCodes_spec rcs (pre ++ encPid pid) rest []
  rw [show (pre ++ encPid pid) ++
      (encList (fun rc => [rc.to_u8]) rcs ++ rest) =
      pre ++ (encPid pid ++ (encList (fun rc => [rc.to_u8]) rcs ++ rest)) by
    simp [List.append_assoc]] at hrt
  rw [show (pre ++ encPid pid).length = pre.length + 2 by simp [encPid]] at hrt
  rw [show pre.length + 2 + (encList (fun rc => [rc.to_u8]) rcs).length =
      pre.length + subackLen ⟨pid, rcs⟩ by
    rw [subackLen_eq]
    dsimp only
    omega] at hrt
  simpa using hrt

/-- `Unsubscribe::from_buffer`, fed the body bytes produced by the encoder
and exactly the body length as `remaining_len`. -/
theorem unsubscribe_from_buffer_spec (pre rest : List Nat) (p : Unsubscribe)
    (hpid1 : 0 < p.pid.value) (hpid2 : p.pid.value < 65536)
    (hts : ∀ t ∈ p.topics, t.length < 65536) :
    Unsubscribe.from_buffer (unsubscribeLen p)
      (pre ++ (encPid p.pid ++ (encList encStr p.topics ++ rest)))
      pre.length = .ok p (pre.length + unsubscribeLen p) := by
  obtain ⟨pid, ts⟩ := p
  apply unsubscribe_from_buffer_ok_of
    (pid_from_buffer_spec pre (encList encStr ts ++ rest) pid hpid1 hpid2)
  have hrt := unsubscribe_readTopics_spec ts (pre ++ encPid pid) rest [] hts
  rw [show (pre ++ encPid pid) ++ (encList encStr ts ++ rest) =
      pre ++ (encPid pid ++ (encList encStr ts ++ rest)) by
    simp [List.append_assoc]] at hrt
  rw [show (pre ++ encPid pid).length = pre.length + 2 by simp [encPid]] at hrt
  rw [show pre.length + 2 + (encList encStr ts).length =
      pre.length + unsubscribeLen ⟨pid, ts⟩ by
    rw [unsubscribeLen_eq]
    dsimp only
    omega] at hrt
  simpa using hrt

theorem encSubscribe_length (p : Subscribe) : (encSubscribe p).length =
    1 + (encode_varint (subscribeLen p)).length + subscribeLen p := by
  simp [encSubscribe, encPid, subscribeLen_eq]
  omega

theorem encSuback_length (p : Suback) : (encSuback p).length =
    1 + (encode_varint (subackLen p)).length + subackLen p := by
  simp [encSuback, encPid, subackLen_eq]
  omega

theorem encUnsubscribe_length (p : Unsubscribe) : (encUnsubscribe p).length =
    1 + (encode_varint (unsubscribeLen p)).length + unsubscribeLen p := by
  simp [encUnsubscribe, encPid, unsubscribeLen_eq]
  omega

/-- Validity of a `Subscribe` value: the structural invariants guaranteed by
construction in the repository (`Pid::try_from` rejects 0, `u16` bounds the
pid, `u16` length prefixes bound the topic strings). -/
def ValidSubscribe (p : Subscribe) : Prop :=
  0 < p.pid.value ∧ p.pid.value < 65536 ∧
    ∀ t ∈ p.topics, t.topic_path.length < 65536

def ValidSuback (p : Suback) : Prop :=
  0 < p.pid.value ∧ p.pid.value < 65536

def ValidUnsubscribe (p : Unsubscribe) : Prop :=
  0 < p.pid.value ∧ p.pid.value < 65536 ∧ ∀ t ∈ p.topics, t.length < 65536

/-- Encode-decode roundtrip for Subscribe. -/
theorem subscribe_roundtrip {p : Subscribe} {buf : List Nat} {w : Nat}
    {buf1 : List Nat} {off1 : Nat} (hv : ValidSubscribe p)
    (hto : Subscribe.to_buffer p buf 0 = .ok (w, buf1, off1)) :
    Subscribe.from_buffer (subscribeLen p) buf1 w = .ok p off1 ∧
      off1 = w + subscribeLen p := by
  obtain ⟨hpid1, hpid2, hts⟩ := hv
  obtain ⟨hle, hw, hwa⟩ := subscribe_to_buffer_ok hto
  obtain ⟨hbuf1, hoff1⟩ := write_all_ok hwa
  subst hw hbuf1 hoff1
  have hlen := encSubscribe_length p
  constructor
  · have hshape : List.take 0 buf ++ encSubscribe p ++
        List.drop (0 + (encSubscribe p).length) buf =
        (0b10000010 :: encode_varint (subscribeLen p)) ++
          (encPid p.pid ++ (encList SubscribeTopic.enc p.topics ++
            List.drop (0 + (encSubscribe p).length) buf)) := by
      simp [encSubscribe, List.append_assoc]
    rw [hshape]
    have hfb := subscribe_from_buffer_spec
      (0b10000010 :: encode_varint (subscribeLen p))
      (List.drop (0 + (encSubscribe p).length) buf) p hpid1 hpid2 hts
    rw [show (0b10000010 :: encode_varint (subscribeLen p)).length =
        1 + (encode_varint (subscribeLen p)).length by simp; omega] at hfb
    rw [show 1 + (encode_varint (subscribeLen p)).length + subscribeLen p =
        0 + (encSubscribe p).length by omega] at hfb
    exact hfb
  · omega

/-- Encode-decode roundtrip for Suback. -/
theorem suback_roundtrip {p : Suback} {buf : List Nat} {w : Nat}
    {buf1 : List Nat} {off1 : Nat} (hv : ValidSuback p)
    (hto : Suback.to_buffer p buf 0 = .ok (w, buf1, off1)) :
    Suback.from_buffer (subackLen p) buf1 w = .ok p off1 ∧
      off1 = w + subackLen p := by
  obtain ⟨hpid1, hpid2⟩ := hv
  obtain ⟨hle, hw, hwa⟩ := suback_to_buffer_ok hto
  obtain ⟨hbuf1, hoff1⟩ := write_all_ok hwa
  subst hw hbuf1 hoff1
  have hlen := encSuback_length p
  constructor
  · have hshape : List.take 0 buf ++ encSuback p ++
        List.drop (0 + (encSuback p).length) buf =
        (0b10010000 :: encode_varint (subackLen p)) ++
          (encPid p.pid ++ (encList (fun rc => [rc.to_u8]) p.return_codes ++
            List.drop (0 + (encSuback p).length) buf)) := by
      simp [encSuback, List.append_assoc]
    rw [hshape]
    have hfb := suback_from_buffer_spec
      (0b10010000 :: encode_varint (subackLen p))
      (List.drop (0 + (encSuback p).length) buf) p hpid1 hpid2
    rw [show (0b10010000 :: encode_varint (subackLen p)).length =
        1 + (encode_varint (subackLen p)).length by simp; omega] at hfb
    rw [show 1 + (encode_varint (subackLen p)).length + subackLen p =
        0 + (encSuback p).length by omega] at hfb
    exact hfb
  · omega

/-- Encode-decode roundtrip for Unsubscribe. -/
theorem unsubscribe_roundtrip {p : Unsubscribe} {buf : List Nat} {w : Nat}
    {buf1 : List Nat} {off1 : Nat} (hv : ValidUnsubscribe p)
    (hto : Unsubscribe.to_buffer p buf 0 = .ok (w, buf1, off1)) :
    Unsubscribe.from_buffer (unsubscribeLen p) buf1 w = .ok p off1 ∧
      off1 = w + unsubscribeLen p := by
  obtain ⟨hpid1, hpid2, hts⟩ := hv
  obtain ⟨hle, hw, hwa⟩ := unsubscribe_to_buffer_ok hto
  obtain ⟨hbuf1, hoff1⟩ := write_all_ok hwa
  subst hw hbuf1 hoff1
  have hlen := encUnsubscribe_length p
  constructor
  · have hshape : List.take 0 buf ++ encUnsubscribe p ++
        List.drop (0 + (encUnsubscribe p).length) buf =
        (0b10100010 :: encode_varint (unsubscribeLen p)) ++
          (encPid p.pid ++ (encList encStr p.topics ++
            List.drop (0 + (encUnsubscribe p).length) buf)) := by
      simp [encUnsubscribe, List.append_assoc]
    rw [hshape]
    have hfb := unsubscribe_from_buffer_spec
      (0b10100010 :: encode_varint (unsubscribeLen p))
      (List.drop (0 + (encUnsubscribe p).length) buf) p hpid1 hpid2 hts
    rw [show (0b10100010 :: encode_varint (unsubscribeLen p)).length =
        1 + (encode_varint (unsubscribeLen p)).length by simp; omega] at hfb
    rw [show 1 + (encode_varint (unsubscribeLen p)).length + unsubscribeLen p =
        0 + (encUnsubscribe p).length by omega] at hfb
    exact hfb
  · omega

theorem pid_from_buffer_no_panic (buf : List Nat) (offset : Nat) :
    Pid.from_buffer buf offset ≠ .panic := by
  unfold Pid.from_buffer
  cases h1 : buf[offset]? <;> cases h2 : buf[offset + 1]? <;> simp
  split <;> simp

theorem pid_from_buffer_ok_advance {buf : List Nat} {offset : Nat} {p : Pid}
    {off : Nat} (h : Pid.from_buffer buf offset = .ok p off) :
    off = offset + 2 ∧ offset + 1 < buf.length := by
  unfold Pid.from_buffer at h
  cases h1 : buf[offset]? with
  | none => simp [h1] at h
  | some hi =>
    cases h2 : buf[offset + 1]? with
    | none => simp [h1, h2] at h
    | some lo =>
      simp only [h1, h2] at h
      have hlt : offset + 1 < buf.length := (List.getElem?_eq_some.mp h2).1
      split at h
      · exact absurd h (by simp)
      · injection h with ha hb
        exact ⟨hb.symm, hlt⟩

theorem retcode_from_buffer_no_panic {buf : List Nat}
    {offset : Nat} (h : offset < buf.length) :
    SubscribeReturnCodes.from_buffer buf offset ≠ .panic := by
  unfold SubscribeReturnCodes.from_buffer
  rw [dif_pos h]
  dsimp only
  split
  · simp
  · split <;> simp

/-- The Suback return-code loop, with the boundary inside the buffer, never
panics, and on success stops exactly at the boundary. -/
theorem Suback.readCodes_safe : ∀ (n : Nat) (buf : List Nat)
    (payload_end offset : Nat) (acc : List SubscribeReturnCodes),
    payload_end - offset ≤ n → offset ≤ payload_end →
    payload_end ≤ buf.length →
    Suback.readCodes buf payload_end offset acc ≠ .panic ∧
    (∀ rcs off, Suback.readCodes buf payload_end offset acc = .ok rcs off →
      off = payload_end) := by
  intro n
  induction n with
  | zero =>
    intro buf pe offset acc hn hle hlen
    rw [Suback.readCodes_stop buf pe offset acc (by omega)]
    refine ⟨by simp, fun rcs off h => ?_⟩
    injection h with ha hb
    omega
  | succ n ih =>
    intro buf pe offset acc hn hle hlen
    by_cases hlt : offset < pe
    · cases hp : SubscribeReturnCodes.from_buffer buf offset with
      | panic =>
        exact absurd hp (retcode_from_buffer_no_panic (by omega))
      | err e off =>
        rw [Suback.readCodes_step_err buf pe offset acc hlt hp]
        exact ⟨by simp, fun rcs off h => by simp at h⟩
      | ok rc off =>
        obtain ⟨hoff, -⟩ := retcode_from_buffer_ok_advance hp
        rw [Suback.readCodes_step_ok buf pe offset acc hlt hp]
        exact ih buf pe off (acc ++ [rc]) (by omega) (by omega) hlen
    · rw [Suback.readCodes_stop buf pe offset acc hlt]
      refine ⟨by simp, fun rcs off h => ?_⟩
      injection h with ha hb
      omega

/-- `Suback::from_buffer`, given a full payload inside the buffer
(`offset + remaining_len ≤ buf.length`) and `remaining_len ≥ 2`, performs no
out-of-bounds access, and on success the offset has advanced by exactly
`remaining_len`. -/
theorem Suback.from_buffer_safe {rl : Nat} {buf : List Nat} {offset : Nat}
    (h1 : offset + rl ≤ buf.length) (h2 : 2 ≤ rl) :
    Suback.from_buffer rl buf offset ≠ .panic ∧
    (∀ s off, Suback.from_buffer rl buf offset = .ok s off →
      off = offset + rl) := by
  unfold Suback.from_buffer
  cases hp : Pid.from_buffer buf offset with
  | panic => exact absurd hp (pid_from_buffer_no_panic buf offset)
  | err e off =>
    constructor
    · intro hcontra
      simp at hcontra
    · intro s off' h
      simp at h
  | ok pid off =>
    obtain ⟨hoff, -⟩ := pid_from_buffer_ok_advance hp
    subst hoff
    have hsafe := Suback.readCodes_safe (offset + rl - (offset + 2)) buf
      (offset + rl) (offset + 2) [] (by omega) (by omega) (by omega)
    dsimp only
    constructor
    · intro hcontra
      cases hrc : Suback.readCodes buf (offset + rl) (offset + 2) [] with
      | panic => exact hsafe.1 hrc
      | err e o =>
        rw [hrc] at hcontra
        simp at hcontra
      | ok rcs o =>
        rw [hrc] at hcontra
        simp at hcontra
    · intro s off' h
      cases hrc : Suback.readCodes buf (offset + rl) (offset + 2) [] with
      | panic =>
        rw [hrc] at h
        simp at h
      | err e o =>
        rw [hrc] at h
        simp at h
      | ok rcs o =>
        rw [hrc] at h
        simp only [PResult.ok.injEq] at h
        have ho := hsafe.2 rcs o hrc
        omega

/-- The Subscribe topic loop, on a buffer that ends exactly at the boundary,
never returns `ok` with the cursor beyond the boundary: a successful exit is
exactly at the boundary. -/
theorem subscribe_readTopics_boundary : ∀ (n : Nat) (buf : List Nat)
    (payload_end offset : Nat) (acc : List SubscribeTopic),
    payload_end - offset ≤ n → buf.length = payload_end →
    offset ≤ payload_end →
    ∀ ts off, Subscribe.readTopics buf payload_end offset acc = .ok ts off →
      off = payload_end := by
  intro n
  induction n with
  | zero =>
    intro buf pe offset acc hn hlen hle ts off h
    rw [subscribe_readTopics_stop buf pe offset acc (by omega)] at h
    injection h with ha hb
    omega
  | succ n ih =>
    intro buf pe offset acc hn hlen hle ts off h
    by_cases hlt : offset < pe
    · cases hp : SubscribeTopic.from_buffer buf offset with
      | panic =>
        rw [subscribe_readTopics_step_panic buf pe offset acc hlt hp] at h
        exact absurd h (by simp)
      | err e o =>
        rw [subscribe_readTopics_step_err buf pe offset acc hlt hp] at h
        exact absurd h (by simp)
      | ok t o =>
        obtain ⟨ho1, ho2⟩ := topic_from_buffer_ok_advance hp
        rw [subscribe_readTopics_step_ok buf pe offset acc hlt hp] at h
        exact ih buf pe o (acc ++ [t]) (by omega) hlen (by omega) ts off h
    · rw [subscribe_readTopics_stop buf pe offset acc hlt] at h
      injection h with ha hb
      omega

/-- The Unsubscribe topic loop, on a buffer that ends exactly at the
boundary, never panics, and a successful exit is exactly at the boundary. -/
theorem unsubscribe_readTopics_boundary : ∀ (n : Nat) (buf : List Nat)
    (payload_end offset : Nat) (acc : List (List Nat)),
    payload_end - offset ≤ n → buf.length = payload_end →
    offset ≤ payload_end →
    Unsubscribe.readTopics buf payload_end offset acc ≠ .panic ∧
    (∀ ts off, Unsubscribe.readTopics buf payload_end offset acc = .ok ts off →
      off = payload_end) := by
  intro n
  induction n with
  | zero =>
    intro buf pe offset acc hn hlen hle
    rw [unsubscribe_readTopics_stop buf pe offset acc (by omega)]
    refine ⟨by simp, fun ts off h => ?_⟩
    injection h with ha hb
    omega
  | succ n ih =>
    intro buf pe offset acc hn hlen hle
    by_cases hlt : offset < pe
    · cases hp : read_str buf offset with
      | panic => exact absurd hp (read_bytes_no_panic buf offset)
      | err e o =>
        rw [unsubscribe_readTopics_step_err buf pe offset acc hlt hp]
        exact ⟨by simp, fun ts off h => by simp at h⟩
      | ok s o =>
        obtain ⟨-, ho1, ho2⟩ := read_str_ok_advance hp
        rw [unsubscribe_readTopics_step_ok buf pe offset acc hlt hp]
        exact ih buf pe o (acc ++ [s]) (by omega) hlen (by omega)
    · rw [unsubscribe_readTopics_stop buf pe offset acc hlt]
      refine ⟨by simp, fun ts off h => ?_⟩
      injection h with ha hb
      omega

/-- `Subscribe::from_buffer`, on a buffer ending exactly at
`offset + remaining_len`, never returns `Ok` with the cursor beyond that
boundary. -/
theorem subscribe_from_buffer_boundary {rl : Nat} {buf : List Nat}
    {offset : Nat} (hlen : buf.length = offset + rl) :
    ∀ s off, Subscribe.from_buffer rl buf offset = .ok s off →
      off = offset + rl := by
  intro s off h
  unfold Subscribe.from_buffer at h
  dsimp only at h
  cases hp : Pid.from_buffer buf offset with
  | panic => rw [hp] at h; simp at h
  | err e o => rw [hp] at h; simp at h
  | ok pid o =>
    rw [hp] at h
    obtain ⟨ho, hb⟩ := pid_from_buffer_ok_advance hp
    subst ho
    dsimp only at h
    cases hrt : Subscribe.readTopics buf (offset + rl) (offset + 2) [] with
    | panic => rw [hrt] at h; simp at h
    | err e o2 => rw [hrt] at h; simp at h
    | ok ts o2 =>
      rw [hrt] at h
      simp only [PResult.ok.injEq] at h
      have := subscribe_readTopics_boundary (offset + rl - (offset + 2)) buf
        (offset + rl) (offset + 2) [] (by omega) hlen (by omega) ts o2 hrt
      omega

/-- `Suback::from_buffer`, on a buffer ending exactly at
`offset + remaining_len`, never panics, and on success the cursor is exactly
at the boundary. -/
theorem suback_from_buffer_boundary {rl : Nat} {buf : List Nat}
    {offset : Nat} (hlen : buf.length = offset + rl) :
    Suback.from_buffer rl buf offset ≠ .panic ∧
    (∀ s off, Suback.from_buffer rl buf offset = .ok s off →
      off = offset + rl) := by
  unfold Suback.from_buffer
  dsimp only
  cases hp : Pid.from_buffer buf offset with
  | panic => exact absurd hp (pid_from_buffer_no_panic buf offset)
  | err e o =>
    constructor
    · intro hcontra
      simp at hcontra
    · intro s off h
      simp at h
  | ok pid o =>
    obtain ⟨ho, hb⟩ := pid_from_buffer_ok_advance hp
    subst ho
    have hsafe := Suback.readCodes_safe (offset + rl - (offset + 2)) buf
      (offset + rl) (offset + 2) [] (by omega) (by omega) (by omega)
    constructor
    · intro hcontra
      dsimp only at hcontra
      cases hrc : Suback.readCodes buf (offset + rl) (offset + 2) [] with
      | panic => exact hsafe.1 hrc
      | err e o2 =>
        rw [hrc] at hcontra
        simp at hcontra
      | ok rcs o2 =>
        rw [hrc] at hcontra
        simp at hcontra
    · intro s off h
      dsimp only at h
      cases hrc : Suback.readCodes buf (offset + rl) (offset + 2) [] with
      | panic => rw [hrc] at h; simp at h
      | err e o2 => rw [hrc] at h; simp at h
      | ok rcs o2 =>
        rw [hrc] at h
        simp only [PResult.ok.injEq] at h
        have ho2 := hsafe.2 rcs o2 hrc
        omega

/-- `Unsubscribe::from_buffer`, on a buffer ending exactly at
`offset + remaining_len`, never panics, and on success the cursor is exactly
at the boundary. -/
theorem unsubscribe_from_buffer_boundary {rl : Nat} {buf : List Nat}
    {offset : Nat} (hlen : buf.length = offset + rl) :
    Unsubscribe.from_buffer rl buf offset ≠ .panic ∧
    (∀ s off, Unsubscribe.from_buffer rl buf offset = .ok s off →
      off = offset + rl) := by
  unfold Unsubscribe.from_buffer
  dsimp only
  cases hp : Pid.from_buffer buf offset with
  | panic => exact absurd hp (pid_from_buffer_no_panic buf offset)
  | err e o =>
    constructor
    · intro hcontra
      simp at hcontra
    · intro s off h
      simp at h
  | ok pid o =>
    obtain ⟨ho, hb⟩ := pid_from_buffer_ok_advance hp
    subst ho
    have hbd := unsubscribe_readTopics_boundary (offset + rl - (offset + 2))
      buf (offset + rl) (offset + 2) [] (by omega) hlen (by omega)
    constructor
    · intro hcontra
      dsimp only at hcontra
      cases hrc : Unsubscribe.readTopics buf (offset + rl) (offset + 2) [] with
      | panic => exact hbd.1 hrc
      | err e o2 =>
        rw [hrc] at hcontra
        simp at hcontra
      | ok ts o2 =>
        rw [hrc] at hcontra
        simp at hcontra
    · intro s off h
      dsimp only at h
      cases hrc : Unsubscribe.readTopics buf (offset + rl) (offset + 2) [] with
      | panic => rw [hrc] at h; simp at h
      | err e o2 => rw [hrc] at h; simp at h
      | ok ts o2 =>
        rw [hrc] at h
        simp only [PResult.ok.injEq] at h
        have ho2 := hbd.2 ts o2 hrc
        omega

theorem land_127 (b : Nat) : b &&& 127 = b % 128 := by
  have h := Nat.and_pow_two_sub_one_eq_mod b 7
  norm_num at h
  exact h

theorem land_128_of_lt {b : Nat} (h : b < 128) : b &&& 128 = 0 := by
  have h2 := Nat.and_two_pow b 7
  rw [Nat.testBit_to_div_mod] at h2
  rw [show b / 2 ^ 7 = 0 by omega] at h2
  simpa using h2

theorem land_128_of_ge {b : Nat} (h1 : 128 ≤ b) (h2 : b < 256) :
    b &&& 128 = 128 := by
  have h3 := Nat.and_two_pow b 7
  rw [Nat.testBit_to_div_mod] at h3
  rw [show b / 2 ^ 7 = 1 by omega] at h3
  simpa using h3

theorem readLengthLoop_panic (buffer : List Nat) (pos mult len : Nat)
    (h : ¬ pos < buffer.length) :
    readLengthLoop buffer pos mult len = none := by
  rw [readLengthLoop]
  simp [h]

/-- One iteration of the legacy length-reading loop, expressed through the
byte found at the cursor. -/
theorem readLengthLoop_step_val {buffer : List Nat} {pos b : Nat}
    (hb : buffer[pos]? = some b) (mult len : Nat) :
    readLengthLoop buffer pos mult len =
      if MULTIPLIER < mult * 0x80 then some none
      else if b &&& 0x80 = 0 then
        some (some (len + (b &&& 0x7F) * mult, pos))
      else readLengthLoop buffer (pos + 1) (mult * 0x80)
        (len + (b &&& 0x7F) * mult) := by
  obtain ⟨hlt, hbv⟩ := List.getElem?_eq_some.mp hb
  rw [readLengthLoop, dif_pos hlt]
  simp only [hbv]

/-- The legacy length loop, started with `mult = 1`, `len = 0` at the first
byte of a valid 1-4 byte varint encoding, accepts it: it returns the encoded
value and the position of the terminating byte. -/
theorem readLengthLoop_varint (n : Nat) (pre rest : List Nat)
    (hn : n ≤ 268435455) :
    readLengthLoop (pre ++ (encode_varint n ++ rest)) pre.length 1 0 =
      some (some (n, pre.length + ((encode_varint n).length - 1))) := by
  by_cases h1 : n ≤ 127
  · have henc : encode_varint n = [n] := by
      simp [encode_varint, h1]
    rw [henc]
    have hb0 : (pre ++ ([n] ++ rest))[pre.length]? = some n := by
      simpa using getElem?_append_add pre ([n] ++ rest) 0
    rw [readLengthLoop_step_val hb0]
    rw [if_neg (by norm_num [MULTIPLIER])]
    rw [if_pos (land_128_of_lt (by omega))]
    simp only [land_127, List.length_cons, List.length_nil,
      Option.some.injEq, Prod.mk.injEq, and_true]
    omega
  · by_cases h2 : n ≤ 16383
    · have henc : encode_varint n = [n % 128 + 128, n / 128] := by
        simp [encode_varint, h1, h2]
      rw [henc]
      have hb0 : (pre ++ ([n % 128 + 128, n / 128] ++ rest))[pre.length]? =
          some (n % 128 + 128) := by
        simpa using getElem?_append_add pre ([n % 128 + 128, n / 128] ++ rest) 0
      have hb1 : (pre ++ ([n % 128 + 128, n / 128] ++
          rest))[pre.length + 1]? = some (n / 128) := by
        simpa using getElem?_append_add pre ([n % 128 + 128, n / 128] ++ rest) 1
      rw [readLengthLoop_step_val hb0]
      rw [if_neg (by norm_num [MULTIPLIER])]
      rw [if_neg (by rw [land_128_of_ge (by omega) (by omega)]; omega)]
      rw [readLengthLoop_step_val hb1]
      rw [if_neg (by norm_num [MULTIPLIER])]
      rw [if_pos (land_128_of_lt (by omega))]
      simp only [land_127, List.length_cons, List.length_nil,
        Option.some.injEq, Prod.mk.injEq, and_true]
      omega
    · by_cases h3 : n ≤ 2097151
      · have henc : encode_varint n =
            [n % 128 + 128, n / 128 % 128 + 128, n / 16384] := by
          simp [encode_varint, h1, h2, h3]
        rw [henc]
        have hb0 : (pre ++ ([n % 128 + 128, n / 128 % 128 + 128, n / 16384] ++
            rest))[pre.length]? = some (n % 128 + 128) := by
          simpa using getElem?_append_add pre
            ([n % 128 + 128, n / 128 % 128 + 128, n / 16384] ++ rest) 0
        have hb1 : (pre ++ ([n % 128 + 128, n / 128 % 128 + 128, n / 16384] ++
            rest))[pre.length + 1]? = some (n / 128 % 128 + 128) := by
          simpa using getElem?_append_add pre
            ([n % 128 + 128, n / 128 % 128 + 128, n / 16384] ++ rest) 1
        have hb2 : (pre ++ ([n % 128 + 128, n / 128 % 128 + 128, n / 16384] ++
            rest))[pre.length + 1 + 1]? = some (n / 16384) := by
          have := getElem?_append_add pre
            ([n % 128 + 128, n / 128 % 128 + 128, n / 16384] ++ rest) 2
          rw [show pre.length + 1 + 1 = pre.length + 2 by omega]
          simpa using this
        rw [readLengthLoop_step_val hb0]
        rw [if_neg (by norm_num [MULTIPLIER])]
        rw [if_neg (by rw [land_128_of_ge (by omega) (by omega)]; omega)]
        rw [readLengthLoop_step_val hb1]
        rw [if_neg (by norm_num [MULTIPLIER])]
        rw [if_neg (by rw [land_128_of_ge (by omega) (by omega)]; omega)]
        rw [readLengthLoop_step_val hb2]
        rw [if_neg (by norm_num [MULTIPLIER])]
        rw [if_pos (land_128_of_lt (by omega))]
        simp only [land_127, List.length_cons, List.length_nil,
          Option.some.injEq, Prod.mk.injEq, and_true]
        omega
      · have henc : encode_varint n = [n % 128 + 128, n / 128 % 128 + 128,
            n / 16384 % 128 + 128, n / 2097152] := by
          simp [encode_varint, h1, h2, h3]
        rw [henc]
        have hb0 : (pre ++ ([n % 128 + 128, n / 128 % 128 + 128,
            n / 16384 % 128 + 128, n / 2097152] ++ rest))[pre.length]? =
            some (n % 128 + 128) := by
          simpa using getElem?_append_add pre ([n % 128 + 128,
            n / 128 % 128 + 128, n / 16384 % 128 + 128, n / 2097152] ++ rest) 0
        have hb1 : (pre ++ ([n % 128 + 128, n / 128 % 128 + 128,
            n / 16384 % 128 + 128, n / 2097152] ++
            rest))[pre.length + 1]? = some (n / 128 % 128 + 128) := by
          simpa using getElem?_append_add pre ([n % 128 + 128,
            n / 128 % 128 + 128, n / 16384 % 128 + 128, n / 2097152] ++ rest) 1
        have hb2 : (pre ++ ([n % 128 + 128, n / 128 % 128 + 128,
            n / 16384 % 128 + 128, n / 2097152] ++
            rest))[pre.length + 1 + 1]? = some (n / 16384 % 128 + 128) := by
          have := getElem?_append_add pre ([n % 128 + 128,
            n / 128 % 128 + 128, n / 16384 % 128 + 128, n / 2097152] ++ rest) 2
          rw [show pre.length + 1 + 1 = pre.length + 2 by omega]
          simpa using this
        have hb3 : (pre ++ ([n % 128 + 128, n / 128 % 128 + 128,
            n / 16384 % 128 + 128, n / 2097152] ++
            rest))[pre.length + 1 + 1 + 1]? = some (n / 2097152) := by
          have := getElem?_append_add pre ([n % 128 + 128,
            n / 128 % 128 + 128, n / 16384 % 128 + 128, n / 2097152] ++ rest) 3
          rw [show pre.length + 1 + 1 + 1 = pre.length + 3 by omega]
          simpa using this
        rw [readLengthLoop_step_val hb0]
        rw [if_neg (by norm_num [MULTIPLIER])]
        rw [if_neg (by rw [land_128_of_ge (by omega) (by omega)]; omega)]
        rw [readLengthLoop_step_val hb1]
        rw [if_neg (by norm_num [MULTIPLIER])]
        rw [if_neg (by rw [land_128_of_ge (by omega) (by omega)]; omega)]
        rw [readLengthLoop_step_val hb2]
        rw [if_neg (by norm_num [MULTIPLIER])]
        rw [if_neg (by rw [land_128_of_ge (by omega) (by omega)]; omega)]
        rw [readLengthLoop_step_val hb3]
        rw [if_neg (by norm_num [MULTIPLIER])]
        rw [if_pos (land_128_of_lt (by omega))]
        simp only [land_127, List.length_cons, List.length_nil,
          Option.some.injEq, Prod.mk.injEq, and_true]
        omega

theorem encode_varint_length_pos (n : Nat) : 1 ≤ (encode_varint n).length := by
  unfold encode_varint
  split
  · simp
  · split
    · simp
    · split <;> simp

/-- `read_length` on a buffer carrying a valid varint encoding of `n` at
position 1 returns `n` and the position of the terminating byte. -/
theorem read_length_varint (n b0 : Nat) (rest : List Nat)
    (hn : n ≤ 268435455) :
    read_length (b0 :: (encode_varint n ++ rest)) 1 =
      some (some (n, (encode_varint n).length)) := by
  have h := readLengthLoop_varint n [b0] rest hn
  simp only [List.length_cons, List.length_nil, List.cons_append,
    List.nil_append, Nat.zero_add] at h
  rw [show 1 + ((encode_varint n).length - 1) = (encode_varint n).length by
    have := encode_varint_length_pos n
    omega] at h
  exact h

/-- `read_length` terminates with the Rust `None` (no unbounded loop, no
panic) whenever five consecutive bytes from the start position all carry the
continuation bit. -/
theorem read_length_reject (buf : List Nat) (pos : Nat)
    (h : ∀ i, i ≤ 4 → ∃ b, buf[pos + i]? = some b ∧ 128 ≤ b ∧ b < 256) :
    read_length buf pos = some none := by
  obtain ⟨b0, hb0, hb0a, hb0b⟩ := h 0 (by norm_num)
  obtain ⟨b1, hb1, hb1a, hb1b⟩ := h 1 (by norm_num)
  obtain ⟨b2, hb2, hb2a, hb2b⟩ := h 2 (by norm_num)
  obtain ⟨b3, hb3, hb3a, hb3b⟩ := h 3 (by norm_num)
  obtain ⟨b4, hb4, hb4a, hb4b⟩ := h 4 (by norm_num)
  rw [show pos + 0 = pos by omega] at hb0
  unfold read_length
  rw [readLengthLoop_step_val hb0]
  rw [if_neg (by norm_num [MULTIPLIER])]
  rw [if_neg (by rw [land_128_of_ge hb0a hb0b]; omega)]
  rw [readLengthLoop_step_val hb1]
  rw [if_neg (by norm_num [MULTIPLIER])]
  rw [if_neg (by rw [land_128_of_ge hb1a hb1b]; omega)]
  rw [show pos + 1 + 1 = pos + 2 by omega]
  rw [readLengthLoop_step_val hb2]
  rw [if_neg (by norm_num [MULTIPLIER])]
  rw [if_neg (by rw [land_128_of_ge hb2a hb2b]; omega)]
  rw [show pos + 2 + 1 = pos + 3 by omega]
  rw [readLengthLoop_step_val hb3]
  rw [if_neg (by norm_num [MULTIPLIER])]
  rw [if_neg (by rw [land_128_of_ge hb3a hb3b]; omega)]
  rw [show pos + 3 + 1 = pos + 4 by omega]
  rw [readLengthLoop_step_val hb4]
  rw [if_pos (by norm_num [MULTIPLIER])]

/-- Modelled from the spec (§3, §6) for the `no_std` configuration:
`LimitedVec<T> = heapless::Vec<T, 5>` (`src/subscribe.rs` line 10); `push`
fails explicitly when 5 elements are already present. -/
def limitedPush {α : Type} (xs : List α) (x : α) : Except Unit (List α) :=
  if xs.length < 5 then .ok (xs ++ [x]) else .error ()

/-- Modelled from the spec (§3, §6) for the `no_std` configuration:
`LimitedString = heapless::String<256>` (`src/subscribe.rs` line 15);
`from_str` fails when the string is longer than 256 bytes. -/
def limitedFromStr (s : List Nat) : Except Unit (List Nat) :=
  if s.length ≤ 256 then .ok s else .error ()

/-- `SubscribeTopic::from_buffer` in the `no_std` configuration
(`src/subscribe.rs` lines 33-38): `LimitedString::from_str(...).unwrap()`
panics when `from_str` fails, i.e. when the decoded string exceeds 256
bytes. -/
def SubscribeTopic.from_buffer_nostd (buf : List Nat) (offset : Nat) :
    PResult SubscribeTopic :=
  match read_str buf offset with
  | .panic => .panic
  | .err e off => .err e off
  | .ok s off =>
    match limitedFromStr s with
    | .error _ => .panic
    | .ok topic_path =>
      if h : off < buf.length then
        match QoS.from_u8 buf[off] with
        | .error e => .err e off
        | .ok qos => .ok ⟨topic_path, qos⟩ (off + 1)
      else .panic

theorem SubscribeTopic.from_buffer_nostd_ok_advance {buf : List Nat}
    {offset : Nat} {t : SubscribeTopic} {off : Nat}
    (h : SubscribeTopic.from_buffer_nostd buf offset = .ok t off) :
    offset < off := by
  unfold SubscribeTopic.from_buffer_nostd at h
  cases hs : read_str buf offset with
  | panic => simp [hs] at h
  | err e o => simp [hs] at h
  | ok s o =>
    simp only [hs] at h
    obtain ⟨-, ho, -⟩ := read_str_ok_advance hs
    cases hf : limitedFromStr s with
    | error u => simp [hf] at h
    | ok s2 =>
      simp only [hf] at h
      split at h
      · split at h
        · exact absurd h (by simp)
        · obtain ⟨-, hoff⟩ := by simpa using h
          omega
      · exact absurd h (by simp)

/-- The topic loop of `Subscribe::from_buffer` in the `no_std` configuration
(`src/subscribe.rs` lines 116-122): a failed `push` is mapped to
`Error::InvalidLength` by line 121. -/
def Subscribe.readTopicsNostd (buf : List Nat) (payload_end offset : Nat)
    (topics : List SubscribeTopic) : PResult (List SubscribeTopic) :=
  if hlt : offset < payload_end then
    match hp : SubscribeTopic.from_buffer_nostd buf offset with
    | .panic => .panic
    | .err e off => .err e off
    | .ok t off =>
      match limitedPush topics t with
      | .error _ => .err .InvalidLength off
      | .ok topics2 => Subscribe.readTopicsNostd buf payload_end off topics2
  else .ok topics offset
termination_by payload_end - offset
decreasing_by
  have := SubscribeTopic.from_buffer_nostd_ok_advance hp
  omega

/-- The return-code loop of `Suback::from_buffer` in the `no_std`
configuration (`src/subscribe.rs` lines 207-213). -/
def Suback.readCodesNostd (buf : List Nat) (payload_end offset : Nat)
    (return_codes : List SubscribeReturnCodes) :
    PResult (List SubscribeReturnCodes) :=
  if hlt : offset < payload_end then
    match hp : SubscribeReturnCodes.from_buffer buf offset with
    | .panic => .panic
    | .err e off => .err e off
    | .ok rc off =>
      match limitedPush return_codes rc with
      | .error _ => .err .InvalidLength off
      | .ok rcs2 => Suback.readCodesNostd buf payload_end off rcs2
  else .ok return_codes offset
termination_by payload_end - offset
decreasing_by
  have := (retcode_from_buffer_ok_advance hp).1
  omega

theorem Subscribe.readTopicsNostd_step_panic (buf : List Nat)
    (payload_end offset : Nat) (acc : List SubscribeTopic)
    (hlt : offset < payload_end)
    (h : SubscribeTopic.from_buffer_nostd buf offset = .panic) :
    Subscribe.readTopicsNostd buf payload_end offset acc = .panic := by
  rw [Subscribe.readTopicsNostd, dif_pos hlt]
  split <;> rename_i heq <;> rw [h] at heq <;> cases heq <;> rfl

theorem Suback.readCodesNostd_step (buf : List Nat)
    (payload_end offset : Nat) (acc : List SubscribeReturnCodes)
    {rc : SubscribeReturnCodes} {off : Nat} (hlt : offset < payload_end)
    (h : SubscribeReturnCodes.from_buffer buf offset = .ok rc off) :
    Suback.readCodesNostd buf payload_end offset acc =
      match limitedPush acc rc with
      | .error _ => .err .InvalidLength off
      | .ok rcs2 => Suback.readCodesNostd buf payload_end off rcs2 := by
  rw [Suback.readCodesNostd, dif_pos hlt]
  split <;> rename_i heq <;> rw [h] at heq <;> cases heq <;> rfl

/-- `Subscribe::from_buffer` in the `no_std` configuration
(`src/subscribe.rs` lines 108-125). -/
def Subscribe.from_buffer_nostd (remaining_len : Nat) (buf : List Nat)
    (offset : Nat) : PResult Subscribe :=
  let payload_end := offset + remaining_len
  match Pid.from_buffer buf offset with
  | .panic => .panic
  | .err e off => .err e off
  | .ok pid off =>
    match Subscribe.readTopicsNostd buf payload_end off [] with
    | .panic => .panic
    | .err e off => .err e off
    | .ok topics off => .ok ⟨pid, topics⟩ off

/-- `Suback::from_buffer` in the `no_std` configuration
(`src/subscribe.rs` lines 199-216). -/
def Suback.from_buffer_nostd (remaining_len : Nat) (buf : List Nat)
    (offset : Nat) : PResult Suback :=
  let payload_end := offset + remaining_len
  match Pid.from_buffer buf offset with
  | .panic => .panic
  | .err e off => .err e off
  | .ok pid off =>
    match Suback.readCodesNostd buf payload_end off [] with
    | .panic => .panic
    | .err e off => .err e off
    | .ok return_codes off => .ok ⟨pid, return_codes⟩ off

theorem Subscribe.from_buffer_nostd_panic_of {rl : Nat} {buf : List Nat}
    {offset : Nat} {pid : Pid} {off1 : Nat}
    (h1 : Pid.from_buffer buf offset = .ok pid off1)
    (h2 : Subscribe.readTopicsNostd buf (offset + rl) off1 [] = .panic) :
    Subscribe.from_buffer_nostd rl buf offset = .panic := by
  unfold Subscribe.from_buffer_nostd
  simp only [h1, h2]

theorem Suback.from_buffer_nostd_err_of {rl : Nat} {buf : List Nat}
    {offset : Nat} {pid : Pid} {off1 : Nat} {e : Error} {off2 : Nat}
    (h1 : Pid.from_buffer buf offset = .ok pid off1)
    (h2 : Suback.readCodesNostd buf (offset + rl) off1 [] = .err e off2) :
    Suback.from_buffer_nostd rl buf offset = .err e off2 := by
  unfold Suback.from_buffer_nostd
  simp only [h1, h2]

set_option maxRecDepth 8000 in
/-- In the `no_std` configuration, decoding a Subscribe packet whose single
topic string is 257 bytes long panics (via `from_str(..).unwrap()`) instead
of reporting an error. -/
theorem subscribe_nostd_long_topic_panics :
    Subscribe.from_buffer_nostd 262
      ([0, 1, 1, 1] ++ List.replicate 257 97 ++ [0]) 0 = .panic := by
  have hpid : Pid.from_buffer
      ([0, 1, 1, 1] ++ List.replicate 257 97 ++ [0]) 0 = .ok ⟨1⟩ 2 := by
    decide
  have htp : SubscribeTopic.from_buffer_nostd
      ([0, 1, 1, 1] ++ List.replicate 257 97 ++ [0]) 2 = .panic := by
    decide
  refine Subscribe.from_buffer_nostd_panic_of hpid ?_
  rw [show (0 : Nat) + 262 = 262 by omega]
  exact Subscribe.readTopicsNostd_step_panic _ _ _ _ (by norm_num) htp

/-- In the `no_std` configuration, decoding a Suback packet with six return
codes overflows the 5-element `LimitedVec` and fails with
`Error::InvalidLength` (no panic, no silent truncation). -/
theorem suback_nostd_overflow_invalid_length :
    Suback.from_buffer_nostd 8 [0, 1, 0, 0, 0, 0, 0, 0] 0 =
      .err .InvalidLength 8 := by
  have hpid : Pid.from_buffer [0, 1, 0, 0, 0, 0, 0, 0] 0 = .ok ⟨1⟩ 2 := by
    decide
  refine Suback.from_buffer_nostd_err_of hpid ?_
  rw [show (0 : Nat) + 8 = 8 by omega]
  rw [Suback.readCodesNostd_step _ _ _ _ (by norm_num)
    (show SubscribeReturnCodes.from_buffer [0, 1, 0, 0, 0, 0, 0, 0] 2 =
      .ok (.Success .AtMostOnce) 3 by decide)]
  simp only [limitedPush, List.length_nil, List.nil_append]
  norm_num
  rw [Suback.readCodesNostd_step _ _ _ _ (by norm_num)
    (show SubscribeReturnCodes.from_buffer [0, 1, 0, 0, 0, 0, 0, 0] 3 =
      .ok (.Success .AtMostOnce) 4 by decide)]
  simp only [limitedPush, List.length_cons, List.length_nil]
  norm_num
  rw [Suback.readCodesNostd_step _ _ _ _ (by norm_num)
    (show SubscribeReturnCodes.from_buffer [0, 1, 0, 0, 0, 0, 0, 0] 4 =
      .ok (.Success .AtMostOnce) 5 by decide)]
  simp only [limitedPush, List.length_cons, List.length_nil]
  norm_num
  rw [Suback.readCodesNostd_step _ _ _ _ (by norm_num)
    (show SubscribeReturnCodes.from_buffer [0, 1, 0, 0, 0, 0, 0, 0] 5 =
      .ok (.Success .AtMostOnce) 6 by decide)]
  simp only [limitedPush, List.length_cons, List.length_nil]
  norm_num
  rw [Suback.readCodesNostd_step _ _ _ _ (by norm_num)
    (show SubscribeReturnCodes.from_buffer [0, 1, 0, 0, 0, 0, 0, 0] 6 =
      .ok (.Success .AtMostOnce) 7 by decide)]
  simp only [limitedPush, List.length_cons, List.length_nil]
  norm_num
  rw [Suback.readCodesNostd_step _ _ _ _ (by norm_num)
    (show SubscribeReturnCodes.from_buffer [0, 1, 0, 0, 0, 0, 0, 0] 7 =
      .ok (.Success .AtMostOnce) 8 by decide)]
  simp only [limitedPush, List.length_cons, List.length_nil]
  norm_num

/-- The final value of the Rust `*offset` after a parsing call, when the
call did not panic. -/
def PResult.finalOffset {α : Type} : PResult α → Option Nat
  | .panic => none
  | .err _ off => some off
  | .ok _ off => some off

theorem QoS.from_u8_inv : ∀ {n : Nat} {q : QoS},
    QoS.from_u8 n = .ok q → n = q.to_u8 := by
  intro n q h
  rcases n with _ | _ | _ | m
  · simp only [QoS.from_u8, Except.ok.injEq] at h
    subst h
    rfl
  · simp only [QoS.from_u8, Except.ok.injEq] at h
    subst h
    rfl
  · simp only [QoS.from_u8, Except.ok.injEq] at h
    subst h
    rfl
  · exact absurd h (by simp [QoS.from_u8])

/-- A successfully decoded return code re-encodes to the byte that was
read. -/
theorem SubscribeReturnCodes.from_buffer_to_u8 {buf : List Nat}
    {offset : Nat} {rc : SubscribeReturnCodes} {off : Nat}
    (h : SubscribeReturnCodes.from_buffer buf offset = .ok rc off) :
    buf[offset]? = some rc.to_u8 := by
  unfold SubscribeReturnCodes.from_buffer at h
  split at h
  · rename_i hlt
    dsimp only at h
    by_cases hc : buf[offset] = 0x80
    · rw [if_pos hc] at h
      injection h with h1 h2
      subst h1
      exact List.getElem?_eq_some.mpr ⟨hlt, by rw [hc]; rfl⟩
    · rw [if_neg hc] at h
      cases hq : QoS.from_u8 buf[offset] with
      | error e =>
        rw [hq] at h
        exact absurd h (by simp)
      | ok q =>
        rw [hq] at h
        injection h with h1 h2
        subst h1
        exact List.getElem?_eq_some.mpr ⟨hlt, QoS.from_u8_inv hq⟩
  · exact absurd h (by simp)

/-- C1: For every validly constructed Subscribe, Suback, or Unsubscribe
packet value, serializing it with `to_buffer` and then deserializing the
produced bytes with `from_buffer` (passing the remaining length written in
the header) yields `Ok` of a packet equal to the original, with the buffer
exactly consumed: the final offset is exactly the header size plus the
remaining length, i.e. the total number of bytes written. -/
theorem claim_C1_roundtrip :
    (∀ (p : Subscribe) (buf : List Nat) (w : Nat) (buf1 : List Nat)
      (off1 : Nat), ValidSubscribe p →
      Subscribe.to_buffer p buf 0 = .ok (w, buf1, off1) →
      Subscribe.from_buffer (subscribeLen p) buf1 w = .ok p off1 ∧
        off1 = w + subscribeLen p) ∧
    (∀ (p : Suback) (buf : List Nat) (w : Nat) (buf1 : List Nat)
      (off1 : Nat), ValidSuback p →
      Suback.to_buffer p buf 0 = .ok (w, buf1, off1) →
      Suback.from_buffer (subackLen p) buf1 w = .ok p off1 ∧
        off1 = w + subackLen p) ∧
    (∀ (p : Unsubscribe) (buf : List Nat) (w : Nat) (buf1 : List Nat)
      (off1 : Nat), ValidUnsubscribe p →
      Unsubscribe.to_buffer p buf 0 = .ok (w, buf1, off1) →
      Unsubscribe.from_buffer (unsubscribeLen p) buf1 w = .ok p off1 ∧
        off1 = w + unsubscribeLen p) :=
  ⟨fun _ _ _ _ _ hv hto => subscribe_roundtrip hv hto,
   fun _ _ _ _ _ hv hto => suback_roundtrip hv hto,
   fun _ _ _ _ _ hv hto => unsubscribe_roundtrip hv hto⟩

/-- Witness for C1: the Subscribe packet with pid 1 and single topic "a"
with QoS 0 round-trips through a 10-byte buffer. -/
theorem claim_C1_roundtrip_witness :
    Subscribe.from_buffer 6 [0x82, 6, 0, 1, 0, 1, 97, 0, 0, 0] 2 =
      .ok ⟨⟨1⟩, [⟨[97], .AtMostOnce⟩]⟩ 8 ∧ 8 = 2 + 6 :=
  claim_C1_roundtrip.1 ⟨⟨1⟩, [⟨[97], .AtMostOnce⟩]⟩ (List.replicate 10 0) 2
    [0x82, 6, 0, 1, 0, 1, 97, 0, 0, 0] 8
    ⟨by decide, by decide, by decide⟩ (by rfl)

/-- C2 counterexample: `Subscribe::from_buffer` with remaining length 4, on
a buffer that extends past the payload boundary, succeeds with the cursor at
6, strictly beyond the boundary 0 + 4, because the topic parse read past the
boundary into the following bytes instead of failing. -/
theorem claim_C2_boundary_counterexample :
    Subscribe.from_buffer 4 [0, 1, 0, 1, 97, 0] 0 =
      .ok ⟨⟨1⟩, [⟨[97], .AtMostOnce⟩]⟩ 6 ∧ 0 + 4 < 6 := by
  constructor
  · have h1 : Pid.from_buffer [0, 1, 0, 1, 97, 0] 0 = .ok ⟨1⟩ 2 := by decide
    have h2 : SubscribeTopic.from_buffer [0, 1, 0, 1, 97, 0] 2 =
        .ok ⟨[97], .AtMostOnce⟩ 6 := by decide
    refine subscribe_from_buffer_ok_of h1 ?_
    rw [subscribe_readTopics_step_ok _ _ _ _ (by norm_num) h2,
      subscribe_readTopics_stop _ _ _ _ (by norm_num)]
    rfl
  · norm_num

/-- C2 (amended): `from_buffer` reads the `Pid` first and then loops while
the cursor is strictly below `offset + remaining_length`; when the buffer
ends exactly at that boundary, `from_buffer` never returns `Ok` with the
cursor beyond the boundary (a successful parse ends exactly there), and for
Suback and Unsubscribe it never panics. -/
theorem claim_C2_boundary_amended :
    (∀ (rl : Nat) (buf : List Nat) (offset : Nat),
      buf.length = offset + rl →
      ∀ s off, Subscribe.from_buffer rl buf offset = .ok s off →
        off = offset + rl) ∧
    (∀ (rl : Nat) (buf : List Nat) (offset : Nat),
      buf.length = offset + rl →
      Suback.from_buffer rl buf offset ≠ .panic ∧
      ∀ s off, Suback.from_buffer rl buf offset = .ok s off →
        off = offset + rl) ∧
    (∀ (rl : Nat) (buf : List Nat) (offset : Nat),
      buf.length = offset + rl →
      Unsubscribe.from_buffer rl buf offset ≠ .panic ∧
      ∀ s off, Unsubscribe.from_buffer rl buf offset = .ok s off →
        off = offset + rl) :=
  ⟨fun _ _ _ h => subscribe_from_buffer_boundary h,
   fun _ _ _ h => suback_from_buffer_boundary h,
   fun _ _ _ h => unsubscribe_from_buffer_boundary h⟩

/-- Witness for the amended C2, at a two-byte Suback payload ending exactly
at the boundary. -/
theorem claim_C2_boundary_amended_witness :
    Suback.from_buffer 2 [0, 1] 0 ≠ .panic ∧ 2 = 0 + 2 := by
  have hok : Suback.from_buffer 2 [0, 1] 0 = .ok ⟨⟨1⟩, []⟩ 2 := by
    refine suback_from_buffer_ok_of
      (show Pid.from_buffer [0, 1] 0 = .ok ⟨1⟩ 2 by decide) ?_
    rw [Suback.readCodes_stop _ _ _ _ (by norm_num)]
  exact ⟨(claim_C2_boundary_amended.2.1 2 [0, 1] 0 (by decide)).1,
    (claim_C2_boundary_amended.2.1 2 [0, 1] 0 (by decide)).2 ⟨⟨1⟩, []⟩ 2 hok⟩

/-- C3: evaluation of the `no_std` decoder at the failing input.  Decoding a
Subscribe packet whose topic string has 257 bytes panics (the
`LimitedString::from_str(..).unwrap()` of `src/subscribe.rs` line 34)
instead of failing with `InvalidLength` as the claim states; overflowing the
5-element vector cap, by contrast, does fail with `InvalidLength` as
claimed. -/
theorem claim_C3_nostd_eval :
    Subscribe.from_buffer_nostd 262
      ([0, 1, 1, 1] ++ List.replicate 257 97 ++ [0]) 0 = .panic ∧
    Suback.from_buffer_nostd 8 [0, 1, 0, 0, 0, 0, 0, 0] 0 =
      .err .InvalidLength 8 :=
  ⟨subscribe_nostd_long_topic_panics, suback_nostd_overflow_invalid_length⟩

/-- C4: the Remaining-Length decoder `read_length` accepts every valid
1-to-4-byte varint encoding starting at position 1, returning the encoded
value and the position of the terminating byte; and on any five consecutive
continuation bytes it rejects (returns `None`) once the accumulated
multiplier exceeds the 4-byte maximum, rather than looping on. -/
theorem claim_C4_read_length :
    (∀ (n b0 : Nat) (rest : List Nat), n ≤ 268435455 →
      read_length (b0 :: (encode_varint n ++ rest)) 1 =
        some (some (n, (encode_varint n).length))) ∧
    (∀ (buf : List Nat) (pos : Nat),
      (∀ i, i ≤ 4 → ∃ b, buf[pos + i]? = some b ∧ 128 ≤ b ∧ b < 256) →
      read_length buf pos = some none) :=
  ⟨read_length_varint, read_length_reject⟩

/-- Witness for C4: the 2-byte encoding of 321 decodes back to 321 with the
terminating byte at position 2, and five 0xFF bytes are rejected. -/
theorem claim_C4_read_length_witness :
    read_length (0x82 :: (encode_varint 321 ++ [7])) 1 =
      some (some (321, (encode_varint 321).length)) ∧
    read_length [0xFF, 0xFF, 0xFF, 0xFF, 0xFF, 0xFF] 1 = some none :=
  ⟨claim_C4_read_length.1 321 0x82 [7] (by norm_num),
   claim_C4_read_length.2 [0xFF, 0xFF, 0xFF, 0xFF, 0xFF, 0xFF] 1
     (by
       intro i hi
       interval_cases i <;> exact ⟨0xFF, by decide, by norm_num, by norm_num⟩)⟩

/-- C5: `SubscribeReturnCodes` decoding maps byte 0x80 to `Failure` and
bytes 0, 1, 2 to `Success` with QoS 0, 1, 2; byte 0x03 fails with an error;
and re-encoding any successfully decoded return code with `to_u8` yields the
byte that was read. -/
theorem claim_C5_return_codes :
    SubscribeReturnCodes.from_buffer [0x80] 0 = .ok .Failure 1 ∧
    SubscribeReturnCodes.from_buffer [0] 0 = .ok (.Success .AtMostOnce) 1 ∧
    SubscribeReturnCodes.from_buffer [1] 0 = .ok (.Success .AtLeastOnce) 1 ∧
    SubscribeReturnCodes.from_buffer [2] 0 = .ok (.Success .ExactlyOnce) 1 ∧
    SubscribeReturnCodes.from_buffer [3] 0 = .err .InvalidQoS 1 ∧
    (∀ (buf : List Nat) (offset : Nat) (rc : SubscribeReturnCodes)
      (off : Nat), SubscribeReturnCodes.from_buffer buf offset = .ok rc off →
      buf[offset]? = some rc.to_u8) :=
  ⟨by decide, by decide, by decide, by decide, by decide,
   fun _ _ _ _ h => SubscribeReturnCodes.from_buffer_to_u8 h⟩

/-- Witness for C5: re-encoding the code decoded from byte 0x80 gives back
0x80. -/
theorem claim_C5_return_codes_witness :
    ([0x80] : List Nat)[(0 : Nat)]? =
      some (SubscribeReturnCodes.to_u8 .Failure) :=
  claim_C5_return_codes.2.2.2.2.2 [0x80] 0 .Failure 1 (by decide)

/-- C6: encoding `Suback { pid: 1, return_codes: [Success(AtMostOnce)] }`
writes exactly the five bytes `[0x90, 0x03, 0x00, 0x01, 0x00]` (type/flags
byte, remaining length 3, pid high byte, pid low byte, return code byte):
into an exact-size buffer it produces those bytes with the offset advanced
by 5, and into a larger buffer it leaves the bytes past offset 5
untouched. -/
theorem claim_C6_suback_bytes :
    Suback.to_buffer ⟨⟨1⟩, [.Success .AtMostOnce]⟩ [0, 0, 0, 0, 0] 0 =
      .ok (2, [0x90, 0x03, 0x00, 0x01, 0x00], 5) ∧
    Suback.to_buffer ⟨⟨1⟩, [.Success .AtMostOnce]⟩ [0, 0, 0, 0, 0, 7, 7] 0 =
      .ok (2, [0x90, 0x03, 0x00, 0x01, 0x00, 7, 7], 5) :=
  ⟨rfl, rfl⟩

/-- C7 counterexample: encoding `Suback { pid: 5, return_codes: [Failure,
Success(AtLeastOnce)] }` writes 6 bytes (the offset advances from 0 to 6),
but the `Ok` value returned by `to_buffer` is 2, not the number of bytes
written by the call. -/
theorem claim_C7_return_counterexample :
    Suback.to_buffer ⟨⟨5⟩, [.Failure, .Success .AtLeastOnce]⟩
      [0, 0, 0, 0, 0, 0] 0 = .ok (2, [0x90, 4, 0, 5, 0x80, 1], 6) ∧
    (2 : Nat) ≠ 6 - 0 :=
  ⟨rfl, by decide⟩

theorem subscribe_to_buffer_header_len {p : Subscribe} {buf : List Nat}
    {off w : Nat} {buf1 : List Nat} {off1 : Nat}
    (h : Subscribe.to_buffer p buf off = .ok (w, buf1, off1)) :
    w = 1 + (encode_varint (subscribeLen p)).length ∧
    off1 = off + w + subscribeLen p := by
  obtain ⟨hle, hw, hwa⟩ := subscribe_to_buffer_ok h
  obtain ⟨hb, ho⟩ := write_all_ok hwa
  have hl := encSubscribe_length p
  exact ⟨hw, by omega⟩

theorem suback_to_buffer_header_len {p : Suback} {buf : List Nat}
    {off w : Nat} {buf1 : List Nat} {off1 : Nat}
    (h : Suback.to_buffer p buf off = .ok (w, buf1, off1)) :
    w = 1 + (encode_varint (subackLen p)).length ∧
    off1 = off + w + subackLen p := by
  obtain ⟨hle, hw, hwa⟩ := suback_to_buffer_ok h
  obtain ⟨hb, ho⟩ := write_all_ok hwa
  have hl := encSuback_length p
  exact ⟨hw, by omega⟩

theorem unsubscribe_to_buffer_header_len {p : Unsubscribe} {buf : List Nat}
    {off w : Nat} {buf1 : List Nat} {off1 : Nat}
    (h : Unsubscribe.to_buffer p buf off = .ok (w, buf1, off1)) :
    w = 1 + (encode_varint (unsubscribeLen p)).length ∧
    off1 = off + w + unsubscribeLen p := by
  obtain ⟨hle, hw, hwa⟩ := unsubscribe_to_buffer_ok h
  obtain ⟨hb, ho⟩ := write_all_ok hwa
  have hl := encUnsubscribe_length p
  exact ⟨hw, by omega⟩

/-- C7 (amended): the `Ok` value returned by `to_buffer` equals the number
of fixed-header bytes it wrote — the type/flags byte plus the varint length
bytes — not the total number of bytes written; the total (the amount the
offset advanced) is that header size plus the body length. -/
theorem claim_C7_return_amended :
    (∀ (p : Subscribe) (buf : List Nat) (off w : Nat) (buf1 : List Nat)
      (off1 : Nat), Subscribe.to_buffer p buf off = .ok (w, buf1, off1) →
      w = 1 + (encode_varint (subscribeLen p)).length ∧
      off1 = off + w + subscribeLen p) ∧
    (∀ (p : Suback) (buf : List Nat) (off w : Nat) (buf1 : List Nat)
      (off1 : Nat), Suback.to_buffer p buf off = .ok (w, buf1, off1) →
      w = 1 + (encode_varint (subackLen p)).length ∧
      off1 = off + w + subackLen p) ∧
    (∀ (p : Unsubscribe) (buf : List Nat) (off w : Nat) (buf1 : List Nat)
      (off1 : Nat), Unsubscribe.to_buffer p buf off = .ok (w, buf1, off1) →
      w = 1 + (encode_varint (unsubscribeLen p)).length ∧
      off1 = off + w + unsubscribeLen p) :=
  ⟨fun _ _ _ _ _ _ h => subscribe_to_buffer_header_len h,
   fun _ _ _ _ _ _ h => suback_to_buffer_header_len h,
   fun _ _ _ _ _ _ h => unsubscribe_to_buffer_header_len h⟩

/-- Witness for the amended C7, at the Suback packet of the C6 scenario. -/
theorem claim_C7_return_amended_witness :
    (2 : Nat) = 1 + (encode_varint 3).length ∧ (5 : Nat) = 0 + 2 + 3 :=
  claim_C7_return_amended.2.1 ⟨⟨1⟩, [.Success .AtMostOnce]⟩ [0, 0, 0, 0, 0]
    0 2 [0x90, 0x03, 0x00, 0x01, 0x00] 5 (by rfl)

/-- C8: in the legacy decode path, `read_packet` maps every packet type to
the empty placeholder `Packet::None`, and the length-reading loop of the
legacy `read_length` uses unchecked indexing: on the truncated buffer
`[0xFF, 0x80]`, whose final available byte has the continuation bit set, it
indexes past the end of the buffer and panics (modelled as `none`). -/
theorem claim_C8_legacy_decoder :
    (∀ (t : LegacyPacketType) (buffer : List Nat),
      read_packet t buffer = LegacyPacket.None) ∧
    read_length [0xFF, 0x80] 1 = none := by
  constructor
  · intro t buffer
    cases t <;> rfl
  · unfold read_length
    rw [readLengthLoop_step_val
      (show ([0xFF, 0x80] : List Nat)[1]? = some 0x80 by decide)]
    rw [if_neg (by norm_num [MULTIPLIER])]
    rw [if_neg (by rw [land_128_of_ge (by norm_num) (by norm_num)]; omega)]
    exact readLengthLoop_panic _ _ _ _ (by norm_num)

/-- C9: for every buffer, starting offset and remaining length with
`offset + remaining_len ≤ buf.length` and `remaining_len ≥ 2`,
`Suback::from_buffer` performs no out-of-bounds access (never reaches the
modelled panic), and whenever it returns `Ok` the offset has advanced by
exactly `remaining_len`. -/
theorem claim_C9_suback_in_bounds :
    ∀ (rl : Nat) (buf : List Nat) (offset : Nat),
      offset + rl ≤ buf.length → 2 ≤ rl →
      Suback.from_buffer rl buf offset ≠ .panic ∧
      (∀ s off, Suback.from_buffer rl buf offset = .ok s off →
        off = offset + rl) :=
  fun _ _ _ h1 h2 => Suback.from_buffer_safe h1 h2

/-- Witness for C9, at a 3-byte Suback payload inside a 4-byte buffer. -/
theorem claim_C9_suback_in_bounds_witness :
    Suback.from_buffer 3 [0, 1, 0, 9] 0 ≠ .panic ∧ 3 = 0 + 3 := by
  have hok : Suback.from_buffer 3 [0, 1, 0, 9] 0 =
      .ok ⟨⟨1⟩, [.Success .AtMostOnce]⟩ 3 := by
    refine suback_from_buffer_ok_of
      (show Pid.from_buffer [0, 1, 0, 9] 0 = .ok ⟨1⟩ 2 by decide) ?_
    rw [Suback.readCodes_step_ok _ _ _ _ (by norm_num)
      (show SubscribeReturnCodes.from_buffer [0, 1, 0, 9] 2 =
        .ok (.Success .AtMostOnce) 3 by decide)]
    rw [Suback.readCodes_stop _ _ _ _ (by norm_num)]
    rfl
  exact ⟨(claim_C9_suback_in_bounds 3 [0, 1, 0, 9] 0 (by decide)
      (by decide)).1,
    (claim_C9_suback_in_bounds 3 [0, 1, 0, 9] 0 (by decide) (by decide)).2
      ⟨⟨1⟩, [.Success .AtMostOnce]⟩ 3 hok⟩

/-- C10: for every buffer and offset strictly below the buffer length,
`SubscribeReturnCodes::from_buffer` advances the offset by exactly 1
whether it returns `Ok` or `Err` (the error is not atomic with respect to
the cursor); in particular on the invalid code byte 3 the offset stays
advanced. -/
theorem claim_C10_rc_offset :
    (∀ (buf : List Nat) (offset : Nat), offset < buf.length →
      (SubscribeReturnCodes.from_buffer buf offset).finalOffset =
        some (offset + 1)) ∧
    SubscribeReturnCodes.from_buffer [3] 0 = .err .InvalidQoS 1 := by
  constructor
  · intro buf offset h
    unfold SubscribeReturnCodes.from_buffer
    rw [dif_pos h]
    dsimp only
    by_cases hc : buf[offset] = 0x80
    · rw [if_pos hc]
      rfl
    · rw [if_neg hc]
      cases hq : QoS.from_u8 buf[offset] with
      | error e => rfl
      | ok q => rfl
  · decide

/-- Witness for C10, on the single-byte buffer holding the invalid code
byte 3. -/
theorem claim_C10_rc_offset_witness :
    (SubscribeReturnCodes.from_buffer [3] 0).finalOffset = some (0 + 1) :=
  claim_C10_rc_offset.1 [3] 0 (by decide)
